import Mathlib

/-!
Verification development for the prompt-fmt project-context detector,
reconciler and persistence layer.

The definitions below are a shallow embedding of the TypeScript sources:

* `src/lib/project-context.ts` — `detectProjectContext` (one Lean function
  per ecosystem block, composed in source order), `loadProjectContext`,
  `saveProjectContext`.
* `src/commands/init.ts` — `compareContexts`, `initCommand`.

Filesystem reads are modelled by the `FS` structure, whose fields record the
observable result of each `fs` primitive the code invokes (file existence,
file contents, parsed JSON of manifests, directory existence).  JavaScript
semantics that matter are modelled explicitly: object spread merge keeps the
first object's key order and the second object's values; `if (x)` on a
string-or-undefined value is truthiness (`undefined` and the empty string
are falsy); `new Set(xs)` deduplicates keeping first occurrences.
-/

namespace PromptFmt

/-- Substring test on character lists: `leadsWith p l` is true when `p` is an
initial segment of `l` (the building block for JavaScript `includes`). -/
def leadsWith : List Char → List Char → Bool
  | [], _ => true
  | _ :: _, [] => false
  | p :: ps, c :: cs => p = c && leadsWith ps cs

/-- JavaScript `String.prototype.includes` (for the non-empty literal search
patterns used by the detector). -/
def containsSub (pat : List Char) : List Char → Bool
  | [] => leadsWith pat []
  | c :: cs => leadsWith pat (c :: cs) || containsSub pat cs

/-- JavaScript `haystack.includes(needle)`. -/
def strIncludes (s pat : String) : Bool := containsSub pat.data s.data

/-- JavaScript `s.startsWith(pat)`. -/
def strStarts (s pat : String) : Bool := leadsWith pat.data s.data

/-- JavaScript `String.prototype.toLowerCase` (ASCII, which covers every
keyword the detector searches for). -/
def lowerStr (s : String) : String := String.mk (s.data.map Char.toLower)

/-- JavaScript truthiness of a `string | undefined` value: `undefined` and
the empty string are falsy. -/
def optTruthy : Option String → Bool
  | none => false
  | some s => s ≠ ""

/-- One parsed JSON dependency object, as an association list in declared
key order (JavaScript object iteration order for non-numeric keys). -/
def lookupDep (deps : List (String × String)) (k : String) : Option String :=
  (deps.find? (fun p => p.1 = k)).map (fun p => p.2)

/-- JavaScript object spread `\x7b ...a, ...b \x7d` on string-valued objects:
keys of `a` first (with `b`'s value when `b` also has the key), then the keys
of `b` that are not in `a`, in order. -/
def mergeObjStr (a b : List (String × String)) : List (String × String) :=
  a.map (fun p => (p.1, (lookupDep b p.1).getD p.2))
    ++ b.filter (fun p => (lookupDep a p.1).isNone)

/-- The truthiness test `if (allDeps[k])` used throughout the JS/TS and PHP
classifiers: the key must be present with a non-empty version string. -/
def hasDep (deps : List (String × String)) (k : String) : Bool :=
  match lookupDep deps k with
  | some v => v ≠ ""
  | none => false

/-- The `directories` object of a `ProjectContext` (src/types.ts). -/
structure Directories where
  source : Option String := none
  tests : Option String := none
  components : Option String := none
deriving DecidableEq

/-- The `ProjectContext` interface (src/types.ts).  A field is `none` when
the corresponding key is absent from the JavaScript object. -/
structure ProjectContext where
  language : Option String := none
  framework : Option String := none
  testRunner : Option String := none
  directories : Option Directories := none
  dependencies : Option (List String) := none
deriving DecidableEq

/-- A parsed `package.json`: the `dependencies` and `devDependencies`
objects (absent objects are the empty list, matching spread of
`undefined`). -/
structure PkgJson where
  dependencies : List (String × String) := []
  devDependencies : List (String × String) := []
deriving DecidableEq

/-- A parsed `composer.json`: the `require` and `require-dev` objects. -/
structure ComposerJson where
  require : List (String × String) := []
  requireDev : List (String × String) := []
deriving DecidableEq

/-- Observable filesystem state for one working directory: one field per
`fs` primitive result consumed by `detectProjectContext`.

`packageJson`/`composer`: `none` = file absent, `some none` = present but
`JSON.parse` throws, `some (some p)` = parsed.  Content fields (`pom`,
`gemfile`, ...) hold the raw file text when the file exists.  The two Swift
dependency fields hold the result of the regex extractions performed on
`Package.swift` and on the lowercased `Podfile` (`none` = `match` returned
`null`); the regex engine itself is treated as part of the environment.
`csprojContent` is the content of the first `*.csproj` file in directory
order, when the directory listing succeeded and such a file exists.
`dirs` is the set of relative paths that exist as directories. -/
structure FS where
  packageJson : Option (Option PkgJson) := none
  tsconfigExists : Bool := false
  packageSwift : Option String := none
  packageSwiftDeps : Option (List String) := none
  hasXcodeProj : Bool := false
  podfile : Option String := none
  podfileDeps : Option (List String) := none
  pom : Option String := none
  gradle : Option String := none
  gradleKts : Option String := none
  hasCsproj : Bool := false
  hasSln : Bool := false
  csprojContent : Option String := none
  gemfile : Option String := none
  composer : Option (Option ComposerJson) := none
  requirements : Option String := none
  pyprojectExists : Bool := false
  pytestIniExists : Bool := false
  conftestExists : Bool := false
  managePyExists : Bool := false
  goMod : Option String := none
  cargoToml : Option String := none
  mixExs : Option String := none
  buildSbt : Option String := none
  cmake : Option String := none
  makefileExists : Bool := false
  hasCppFile : Bool := false
  pubspec : Option String := none
  dirs : List String := []

/-- Language detection of the JS/TS block (project-context.ts lines 57-62),
written as the value assigned to `context.language`. -/
def jsLang (fs : FS) (allDeps : List (String × String)) (c : ProjectContext) :
    ProjectContext :=
  { c with
      language := some (if hasDep allDeps "typescript" || fs.tsconfigExists
        then "typescript" else "javascript") }

/-- Framework chain of the JS/TS block (lines 64-99): ordered if/else-if,
first match wins, written as the value `context.framework` holds after the
chain (the final else leaves the field unchanged). -/
def jsFramework (allDeps : List (String × String)) (c : ProjectContext) :
    ProjectContext :=
  { c with
      framework :=
        if hasDep allDeps "next" then some "next.js"
        else if hasDep allDeps "@remix-run/react" || hasDep allDeps "remix" then some "remix"
        else if hasDep allDeps "gatsby" then some "gatsby"
        else if hasDep allDeps "nuxt" then some "nuxt"
        else if hasDep allDeps "@angular/core" then some "angular"
        else if hasDep allDeps "vue" then some "vue"
        else if hasDep allDeps "svelte" || hasDep allDeps "@sveltejs/kit" then some "svelte"
        else if hasDep allDeps "solid-js" then some "solid"
        else if hasDep allDeps "react-native" then some "react-native"
        else if hasDep allDeps "expo" then some "expo"
        else if hasDep allDeps "electron" then some "electron"
        else if hasDep allDeps "react" then some "react"
        else if hasDep allDeps "nestjs" || hasDep allDeps "@nestjs/core" then some "nestjs"
        else if hasDep allDeps "hono" then some "hono"
        else if hasDep allDeps "express" then some "express"
        else if hasDep allDeps "fastify" then some "fastify"
        else if hasDep allDeps "koa" then some "koa"
        else c.framework }

/-- Test-runner chain of the JS/TS block (lines 101-112), written as the
value `context.testRunner` holds after the chain. -/
def jsTest (allDeps : List (String × String)) (c : ProjectContext) :
    ProjectContext :=
  { c with
      testRunner :=
        if hasDep allDeps "vitest" then some "vitest"
        else if hasDep allDeps "jest" then some "jest"
        else if hasDep allDeps "mocha" then some "mocha"
        else if hasDep allDeps "ava" then some "ava"
        else if hasDep allDeps "jasmine" then some "jasmine"
        else c.testRunner }

/-- Notable-dependency extraction of the JS/TS block (lines 114-123):
`Object.keys(allDeps)` filtered then `slice(0, 5)`; the `dependencies` key
is only assigned when the result is non-empty. -/
def jsNotable (allDeps : List (String × String)) (c : ProjectContext) :
    ProjectContext :=
  let notableDeps :=
    ((((allDeps.map (fun p => p.1)).filter
        (fun dep => !(strStarts dep "@types/"))).filter
        (fun dep => !(dep = "typescript" || dep = "prettier" || dep = "eslint"))).filter
        (fun dep => !(c.framework = some dep) && !(c.testRunner = some dep))).take 5
  { c with
      dependencies :=
        if notableDeps.length > 0 then some notableDeps else c.dependencies }

/-- JS/TS ecosystem block (lines 45-127).  `some none` models a present but
unparseable package.json: the catch clause leaves the context untouched. -/
def jsBlock (fs : FS) (c : ProjectContext) : ProjectContext :=
  match fs.packageJson with
  | none => c
  | some none => c
  | some (some pkg) =>
    let allDeps := mergeObjStr pkg.dependencies pkg.devDependencies
    jsNotable allDeps (jsTest allDeps (jsFramework allDeps (jsLang fs allDeps c)))

/-- Swift ecosystem block (lines 129-186).  The two dependency-regex results
come from the `FS` oracle fields; `slice(0, 5)` is applied here as in the
source.  Note the two guards that consult earlier state: the Podfile
framework fallback runs only when `context.framework` is falsy, and the pod
dependency assignment only when `context.dependencies` is unset. -/
def swiftBlock (fs : FS) (c : ProjectContext) : ProjectContext :=
  if fs.packageSwift.isSome || fs.hasXcodeProj then
    let c :=
      match fs.packageSwift with
      | some txt =>
        { c with
            language := some "swift", testRunner := some "xctest",
            framework :=
              if strIncludes txt "SwiftUI" then some "swiftui"
              else if strIncludes txt "Vapor" then some "vapor"
              else c.framework,
            dependencies :=
              match fs.packageSwiftDeps with
              | some ds => some (ds.take 5)
              | none => c.dependencies }
      | none => { c with language := some "swift", testRunner := some "xctest" }
    match fs.podfile with
    | some raw =>
      let pod := lowerStr raw
      let c :=
        { c with
            framework :=
              if !(optTruthy c.framework) && strIncludes pod "rxswift"
              then some "rxswift" else c.framework }
      { c with
          dependencies :=
            match fs.podfileDeps, c.dependencies with
            | some ds, none => some (ds.take 5)
            | _, _ => c.dependencies }
    | none => c
  else c

/-- Java / Kotlin / Android block (lines 188-237): Maven first, else Gradle
(the `.kts` build file is preferred when both exist). -/
def jvmBlock (fs : FS) (c : ProjectContext) : ProjectContext :=
  match fs.pom with
  | some raw =>
    let pom := lowerStr raw
    { c with
        language := some "java", testRunner := some "junit",
        framework :=
          if strIncludes pom "spring-boot" then some "spring-boot"
          else if strIncludes pom "spring" then some "spring"
          else if strIncludes pom "quarkus" then some "quarkus"
          else if strIncludes pom "micronaut" then some "micronaut"
          else c.framework }
  | none =>
    if fs.gradle.isSome || fs.gradleKts.isSome then
      let raw := match fs.gradleKts with
        | some g => g
        | none => fs.gradle.getD ""
      let gradle := lowerStr raw
      if strIncludes gradle "com.android" || strIncludes gradle "android \x7b" then
        { c with language := some "kotlin", framework := some "android",
                 testRunner := some "android-test" }
      else if fs.gradleKts.isSome || strIncludes gradle "kotlin" then
        { c with
            language := some "kotlin", testRunner := some "junit",
            framework :=
              if strIncludes gradle "ktor" then some "ktor"
              else if strIncludes gradle "spring-boot" then some "spring-boot"
              else c.framework }
      else
        { c with
            language := some "java", testRunner := some "junit",
            framework :=
              if strIncludes gradle "spring-boot" then some "spring-boot"
              else if strIncludes gradle "spring" then some "spring"
              else c.framework }
    else c

/-- C# / .NET block (lines 239-277).  `csprojContent` models the guarded
read of the first `.csproj` file (`none` when the listing failed or no such
file exists, matching the catch clause). -/
def csharpBlock (fs : FS) (c : ProjectContext) : ProjectContext :=
  if fs.hasCsproj || fs.hasSln then
    match fs.csprojContent with
    | some raw =>
      let csproj := lowerStr raw
      { c with
          language := some "csharp",
          framework :=
            if strIncludes csproj "microsoft.aspnetcore" || strIncludes csproj "web.sdk"
            then some "asp.net-core"
            else if strIncludes csproj "maui" then some "maui"
            else if strIncludes csproj "xamarin" then some "xamarin"
            else if strIncludes csproj "wpf" then some "wpf"
            else if strIncludes csproj "blazor" then some "blazor"
            else c.framework,
          testRunner :=
            if strIncludes csproj "nunit" then some "nunit"
            else if strIncludes csproj "mstest" then some "mstest"
            else some "xunit" }
    | none => { c with language := some "csharp", testRunner := some "xunit" }
  else c

/-- Ruby block (lines 279-301). -/
def rubyBlock (fs : FS) (c : ProjectContext) : ProjectContext :=
  match fs.gemfile with
  | some raw =>
    let gemfile := lowerStr raw
    { c with
        language := some "ruby",
        framework :=
          if strIncludes gemfile "rails" then some "rails"
          else if strIncludes gemfile "sinatra" then some "sinatra"
          else if strIncludes gemfile "hanami" then some "hanami"
          else c.framework,
        testRunner :=
          if strIncludes gemfile "rspec" then some "rspec"
          else if strIncludes gemfile "minitest" then some "minitest"
          else c.testRunner }
  | none => c

/-- PHP block (lines 303-335).  `language` is assigned before the parse is
attempted, so an unparseable composer.json still sets it. -/
def phpBlock (fs : FS) (c : ProjectContext) : ProjectContext :=
  match fs.composer with
  | none => c
  | some none => { c with language := some "php" }
  | some (some comp) =>
    let allDeps := mergeObjStr comp.require comp.requireDev
    { c with
        language := some "php",
        framework :=
          if hasDep allDeps "laravel/framework" then some "laravel"
          else if hasDep allDeps "symfony/framework-bundle" then some "symfony"
          else if hasDep allDeps "slim/slim" then some "slim"
          else if hasDep allDeps "codeigniter4/framework" then some "codeigniter"
          else c.framework,
        testRunner :=
          if hasDep allDeps "phpunit/phpunit" then some "phpunit"
          else if hasDep allDeps "pestphp/pest" then some "pest"
          else c.testRunner }

/-- Python block (lines 337-371).  The requirements-derived test-runner
assignments are guarded by `!context.testRunner`. -/
def pythonBlock (fs : FS) (c : ProjectContext) : ProjectContext :=
  if fs.requirements.isSome || fs.pyprojectExists then
    let tr0 :=
      if fs.pytestIniExists || fs.conftestExists then some "pytest" else c.testRunner
    if fs.managePyExists then
      { c with language := some "python", testRunner := tr0, framework := some "django" }
    else
      match fs.requirements with
      | some raw =>
        let reqs := lowerStr raw
        { c with
            language := some "python",
            framework :=
              if strIncludes reqs "fastapi" then some "fastapi"
              else if strIncludes reqs "flask" then some "flask"
              else if strIncludes reqs "tornado" then some "tornado"
              else if strIncludes reqs "aiohttp" then some "aiohttp"
              else c.framework,
            testRunner :=
              if strIncludes reqs "pytest" && !(optTruthy tr0) then some "pytest"
              else if strIncludes reqs "unittest" && !(optTruthy tr0) then some "unittest"
              else tr0 }
      | none => { c with language := some "python", testRunner := tr0 }
  else c

/-- Go block (lines 373-390). -/
def goBlock (fs : FS) (c : ProjectContext) : ProjectContext :=
  match fs.goMod with
  | some raw =>
    let goMod := lowerStr raw
    { c with
        language := some "go", testRunner := some "go test",
        framework :=
          if strIncludes goMod "gin-gonic/gin" then some "gin"
          else if strIncludes goMod "labstack/echo" then some "echo"
          else if strIncludes goMod "gofiber/fiber" then some "fiber"
          else if strIncludes goMod "go-chi/chi" then some "chi"
          else c.framework }
  | none => c

/-- Rust block (lines 392-411). -/
def rustBlock (fs : FS) (c : ProjectContext) : ProjectContext :=
  match fs.cargoToml with
  | some raw =>
    let cargo := lowerStr raw
    { c with
        language := some "rust", testRunner := some "cargo test",
        framework :=
          if strIncludes cargo "actix-web" then some "actix-web"
          else if strIncludes cargo "rocket" then some "rocket"
          else if strIncludes cargo "axum" then some "axum"
          else if strIncludes cargo "warp" then some "warp"
          else if strIncludes cargo "tauri" then some "tauri"
          else c.framework }
  | none => c

/-- Elixir block (lines 413-425). -/
def elixirBlock (fs : FS) (c : ProjectContext) : ProjectContext :=
  match fs.mixExs with
  | some raw =>
    { c with
        language := some "elixir", testRunner := some "exunit",
        framework :=
          if strIncludes (lowerStr raw) ":phoenix" then some "phoenix"
          else c.framework }
  | none => c

/-- Scala block (lines 427-443). -/
def scalaBlock (fs : FS) (c : ProjectContext) : ProjectContext :=
  match fs.buildSbt with
  | some raw =>
    let sbt := lowerStr raw
    { c with
        language := some "scala", testRunner := some "scalatest",
        framework :=
          if strIncludes sbt "play" then some "play"
          else if strIncludes sbt "akka-http" then some "akka-http"
          else if strIncludes sbt "http4s" then some "http4s"
          else c.framework }
  | none => c

/-- C / C++ block (lines 445-468). -/
def cppBlock (fs : FS) (c : ProjectContext) : ProjectContext :=
  if fs.cmake.isSome || fs.makefileExists then
    match fs.cmake with
    | some raw =>
      let cmake := lowerStr raw
      { c with
          language := some (if fs.hasCppFile then "cpp" else "c"),
          testRunner :=
            if strIncludes cmake "gtest" || strIncludes cmake "googletest" then some "gtest"
            else if strIncludes cmake "catch2" then some "catch2"
            else c.testRunner,
          framework :=
            if strIncludes cmake "qt" then some "qt" else c.framework }
    | none => { c with language := some (if fs.hasCppFile then "cpp" else "c") }
  else c

/-- Dart / Flutter block (lines 470-482). -/
def dartBlock (fs : FS) (c : ProjectContext) : ProjectContext :=
  match fs.pubspec with
  | some raw =>
    { c with
        language := some "dart", testRunner := some "flutter test",
        framework :=
          if strIncludes (lowerStr raw) "flutter:" then some "flutter"
          else c.framework }
  | none => c

/-- Ordered source-directory candidates (line 490). -/
def srcCandidates : List String := [ "src", "lib", "app", "Sources", "source" ]

/-- Ordered tests-directory candidates (line 498). -/
def testCandidates : List String :=
  [ "tests", "test", "__tests__", "spec", "Tests", "src/__tests__", "src/test" ]

/-- Ordered components-directory candidates (line 506). -/
def componentCandidates : List String :=
  [ "src/components", "components", "app/components", "src/ui", "Views" ]

/-- First candidate that exists as a directory, if any. -/
def firstExistingDir (fs : FS) (cands : List String) : Option String :=
  cands.find? (fun d => fs.dirs.contains d)

/-- Directory-role scan (lines 484-516): the `directories` key is only
assigned when at least one role was found. -/
def dirBlock (fs : FS) (c : ProjectContext) : ProjectContext :=
  let directories : Directories :=
    { source := firstExistingDir fs srcCandidates,
      tests := firstExistingDir fs testCandidates,
      components := firstExistingDir fs componentCandidates }
  if directories = ({} : Directories) then c
  else { c with directories := some directories }

/-- Full `detectProjectContext` (lines 41-519): the ecosystem blocks run in
source order over one mutable context starting empty, then the directory
scan. -/
def detectProjectContext (fs : FS) : ProjectContext :=
  let c : ProjectContext := {}
  let c := jsBlock fs c
  let c := swiftBlock fs c
  let c := jvmBlock fs c
  let c := csharpBlock fs c
  let c := rubyBlock fs c
  let c := phpBlock fs c
  let c := pythonBlock fs c
  let c := goBlock fs c
  let c := rustBlock fs c
  let c := elixirBlock fs c
  let c := scalaBlock fs c
  let c := cppBlock fs c
  let c := dartBlock fs c
  dirBlock fs c

/-- Kind of a `ContextChange` (init.ts line 45). -/
inductive ChangeType where
  | added
  | removed
  | changed
deriving DecidableEq

/-- The `ContextChange` record of init.ts (lines 43-48); `type` is the
change kind, optional values are absent keys. -/
structure ContextChange where
  field : String
  type : ChangeType
  oldValue : Option String := none
  newValue : Option String := none
deriving DecidableEq

/-- Scalar-field comparison of `compareContexts` (init.ts lines 55-68):
JavaScript truthiness decides the kind, so the empty string counts as
absent. -/
def diffScalar (fieldName : String) (oldVal newVal : Option String) :
    List ContextChange :=
  if oldVal = newVal then []
  else if !(optTruthy oldVal) && optTruthy newVal then
    [ { field := fieldName, type := .added, newValue := newVal } ]
  else if optTruthy oldVal && !(optTruthy newVal) then
    [ { field := fieldName, type := .removed, oldValue := oldVal } ]
  else if optTruthy oldVal && optTruthy newVal then
    [ { field := fieldName, type := .changed, oldValue := oldVal, newValue := newVal } ]
  else []

/-- Directory-role comparison of `compareContexts` (init.ts lines 75-89):
same truthiness three-way split, field name `directories.<role>`, and every
emitted value string gets a trailing slash appended. -/
def diffDir (role : String) (oldVal newVal : Option String) :
    List ContextChange :=
  if oldVal = newVal then []
  else if !(optTruthy oldVal) && optTruthy newVal then
    [ { field := "directories." ++ role, type := .added,
        newValue := newVal.map (fun v => v ++ "/") } ]
  else if optTruthy oldVal && !(optTruthy newVal) then
    [ { field := "directories." ++ role, type := .removed,
        oldValue := oldVal.map (fun v => v ++ "/") } ]
  else if optTruthy oldVal && optTruthy newVal then
    [ { field := "directories." ++ role, type := .changed,
        oldValue := oldVal.map (fun v => v ++ "/"),
        newValue := newVal.map (fun v => v ++ "/") } ]
  else []

/-- JavaScript `new Set(xs)` iteration order: deduplicate keeping first
occurrences. -/
def dedupFirst : List String → List String
  | [] => []
  | x :: xs => x :: (dedupFirst xs).filter (fun y => y ≠ x)

/-- Dependency comparison of `compareContexts` (init.ts lines 91-105):
both sides as sets, additions in detected order then removals in stored
order, all under field name `dependency`. -/
def diffDeps (oldList newList : List String) : List ContextChange :=
  ((dedupFirst newList).filter (fun dep => !(oldList.contains dep))).map
      (fun dep => { field := "dependency", type := .added, newValue := some dep })
    ++ ((dedupFirst oldList).filter (fun dep => !(newList.contains dep))).map
      (fun dep => { field := "dependency", type := .removed, oldValue := some dep })

/-- The three directory-role records of `compareContexts`.  The source
iterates the union of the two objects' keys (stored keys first); since the
keys range over the three roles and a role absent from both sides emits
nothing, iterating the roles in their fixed declaration order produces the
same records. -/
def dirChanges (existing detected : ProjectContext) : List ContextChange :=
  let oldDirs := existing.directories.getD {}
  let newDirs := detected.directories.getD {}
  diffDir "source" oldDirs.source newDirs.source
    ++ diffDir "tests" oldDirs.tests newDirs.tests
    ++ diffDir "components" oldDirs.components newDirs.components

/-- `compareContexts` (init.ts lines 50-108): scalar fields in the order
language, framework, testRunner; then directory roles; then dependency
additions and removals. -/
def compareContexts (existing detected : ProjectContext) : List ContextChange :=
  diffScalar "language" existing.language detected.language
    ++ diffScalar "framework" existing.framework detected.framework
    ++ diffScalar "testRunner" existing.testRunner detected.testRunner
    ++ dirChanges existing detected
    ++ diffDeps (existing.dependencies.getD []) (detected.dependencies.getD [])

/-- Which interactive confirmation `initCommand` requested, if any. -/
inductive ConfirmKind where
  | updateConfig
  | saveConfig
deriving DecidableEq

/-- Observable outcome of one `initCommand` run: whether the stored/detected
diff was computed, whether the "config is up to date" message was printed,
which confirmation prompt was shown, and what was persisted. -/
structure InitResult where
  ranDiff : Bool := false
  upToDate : Bool := false
  asked : Option ConfirmKind := none
  saved : Option ProjectContext := none
deriving DecidableEq

/-- The fresh-scan tail of `initCommand` (init.ts lines 159-183): bail out
without saving when nothing was detected, otherwise ask "Save this
configuration?" and persist only on a positive answer. -/
def freshInit (detected : ProjectContext) (answer : Bool) : InitResult :=
  if detected = ({} : ProjectContext) then {}
  else if answer then { asked := some .saveConfig, saved := some detected }
  else { asked := some .saveConfig }

/-- `initCommand` (init.ts lines 126-183) as a function of the stored
profile, the freshly detected profile, the `force` flag and the user's
answer to whichever confirmation is shown.  The diff path runs only when a
stored profile exists and `force` is not set; every other invocation falls
through to the fresh-scan tail. -/
def initCommand (stored : Option ProjectContext) (detected : ProjectContext)
    (force : Bool) (answer : Bool) : InitResult :=
  match stored with
  | some existing =>
    if !force then
      let changes := compareContexts existing detected
      if changes.length = 0 then { ranDiff := true, upToDate := true }
      else if answer then
        { ranDiff := true, asked := some .updateConfig, saved := some detected }
      else { ranDiff := true, asked := some .updateConfig }
    else freshInit detected answer
  | none => freshInit detected answer

/-! ### Helper lemmas about the detection blocks -/

theorem goBlock_absent (fs : FS) (c : ProjectContext) (h : fs.goMod = none) :
    goBlock fs c = c := by
  simp [goBlock, h]

theorem rustBlock_absent (fs : FS) (c : ProjectContext) (h : fs.cargoToml = none) :
    rustBlock fs c = c := by
  simp [rustBlock, h]

theorem elixirBlock_absent (fs : FS) (c : ProjectContext) (h : fs.mixExs = none) :
    elixirBlock fs c = c := by
  simp [elixirBlock, h]

theorem scalaBlock_absent (fs : FS) (c : ProjectContext) (h : fs.buildSbt = none) :
    scalaBlock fs c = c := by
  simp [scalaBlock, h]

theorem cppBlock_absent (fs : FS) (c : ProjectContext) (h1 : fs.cmake = none)
    (h2 : fs.makefileExists = false) : cppBlock fs c = c := by
  simp [cppBlock, h1, h2]

theorem dartBlock_absent (fs : FS) (c : ProjectContext) (h : fs.pubspec = none) :
    dartBlock fs c = c := by
  simp [dartBlock, h]

theorem dirBlock_language (fs : FS) (c : ProjectContext) :
    (dirBlock fs c).language = c.language := by
  simp only [dirBlock]
  split <;> simp

theorem pythonBlock_language (fs : FS) (c : ProjectContext)
    (h : (fs.requirements.isSome || fs.pyprojectExists) = true) :
    (pythonBlock fs c).language = some "python" := by
  unfold pythonBlock
  rw [h]
  simp only [if_true]
  repeat' split
  all_goals rfl

/-! ### Claim C1 — the force flag -/

/-- A working directory holding a package.json with a single `react`
dependency; detection yields a non-empty profile. -/
def fsReact : FS :=
  { packageJson := some (some { dependencies := [ ("react", "^18.2.0") ] }) }

/-- A previously stored profile. -/
def storedJs : ProjectContext := { language := some "javascript" }

/-- C1: the claim says a forced init persists the freshly detected profile
unconditionally, without diffing and without asking for confirmation.  The
code does skip the diff, but it still shows the "Save this configuration?"
prompt, persists nothing when the user declines, and persists nothing at
all when detection comes back empty — contradicting the claim (and the
README, which says `--force` reinitializes without prompts). -/
theorem c1_force_still_prompts :
    initCommand (some storedJs) (detectProjectContext fsReact) true false
        = { ranDiff := false, upToDate := false, asked := some .saveConfig, saved := none }
    ∧ (initCommand (some storedJs) (detectProjectContext fsReact) true true).saved
        = some (detectProjectContext fsReact)
    ∧ initCommand (some storedJs) ({} : ProjectContext) true true = ({} : InitResult) := by
  decide

/-! ### Claim C5 — later classifiers and the overwrite merge -/

/-- A polyglot working directory: a package.json declaring `jest` and a
requirements.txt containing `pytest`.  JS/TS and Python both match; Python
runs last. -/
def fsPoly : FS :=
  { packageJson := some (some { devDependencies := [ ("jest", "^29.0.0") ] }),
    requirements := some "pytest" }

/-- C5 counterexample: on `fsPoly` the Python classifier is the last
matching classifier and, run on its own from the empty context, it sets
`testRunner := pytest`; yet the full detection keeps the earlier `jest`,
because the requirements-derived test-runner assignment is guarded by
`!context.testRunner`.  So a later matching classifier does not overwrite
every profile field it sets. -/
theorem c5_counterexample :
    (detectProjectContext fsPoly).testRunner = some "jest"
    ∧ (pythonBlock fsPoly ({} : ProjectContext)).testRunner = some "pytest"
    ∧ (detectProjectContext fsPoly).testRunner
        ≠ (pythonBlock fsPoly ({} : ProjectContext)).testRunner := by
  decide

/-- C5 amended: classifiers run in the fixed source order, and a later
matching classifier overwrites the fields its branch assigns
unconditionally (such as `language`) while leaving fields it does not
assign unchanged; but the guarded fallback assignments (Python's
requirements-derived test runner, Swift's Podfile-derived framework and
dependencies) fill the field only when no earlier classifier set it.
Stated here for the representative unconditional field: whenever the
Python classifier matches and no later classifier (Go, Rust, Elixir,
Scala, C/C++, Dart) matches, the final `language` is `python`, whatever
any earlier classifier produced. -/
theorem c5_last_classifier_language (fs : FS)
    (hpy : (fs.requirements.isSome || fs.pyprojectExists) = true)
    (hgo : fs.goMod = none) (hrust : fs.cargoToml = none)
    (hmix : fs.mixExs = none) (hsbt : fs.buildSbt = none)
    (hcmake : fs.cmake = none) (hmake : fs.makefileExists = false)
    (hpub : fs.pubspec = none) :
    (detectProjectContext fs).language = some "python" := by
  unfold detectProjectContext
  rw [dirBlock_language, dartBlock_absent fs _ hpub, cppBlock_absent fs _ hcmake hmake,
    scalaBlock_absent fs _ hsbt, elixirBlock_absent fs _ hmix, rustBlock_absent fs _ hrust,
    goBlock_absent fs _ hgo]
  exact pythonBlock_language fs _ hpy

/-- Witness for `c5_last_classifier_language` at a concrete directory that
also matches the JS/TS classifier first. -/
theorem c5_last_classifier_language_witness :
    (detectProjectContext fsPoly).language = some "python" :=
  c5_last_classifier_language fsPoly (by decide) rfl rfl rfl rfl rfl rfl rfl

/-! ### Claim C6 — idempotence of the diff and the up-to-date signal -/

theorem mem_dedupFirst {x : String} : ∀ {l : List String}, x ∈ dedupFirst l → x ∈ l
  | a :: as, h => by
    rw [dedupFirst] at h
    rcases List.mem_cons.mp h with h | h
    · simp [h]
    · exact List.mem_cons_of_mem a (mem_dedupFirst (List.mem_of_mem_filter h))

theorem diffDeps_self (l : List String) : diffDeps l l = [] := by
  have hmem : ∀ a ∈ dedupFirst l, a ∈ l := fun a ha => mem_dedupFirst ha
  have hfilter : (dedupFirst l).filter (fun dep => !(l.contains dep)) = [] := by
    rw [List.filter_eq_nil_iff]
    intro a ha
    simp [hmem a ha]
  simp only [diffDeps, hfilter, List.map_nil, List.append_nil]

/-- C6: diffing any profile against itself yields the empty change list, in
particular diffing two runs of detection over an unchanged directory; and
within the re-check path of `initCommand` (stored profile present, no
force), the empty diff is exactly the condition for the "config is up to
date" report. -/
theorem c6_diff_idempotent :
    (∀ P : ProjectContext, compareContexts P P = [])
    ∧ (∀ fs : FS, compareContexts (detectProjectContext fs) (detectProjectContext fs) = [])
    ∧ ∀ existing detected : ProjectContext, ∀ answer : Bool,
        (initCommand (some existing) detected false answer).upToDate = true
          ↔ compareContexts existing detected = [] := by
  have hself : ∀ P : ProjectContext, compareContexts P P = [] := by
    intro P
    simp [compareContexts, diffScalar, dirChanges, diffDir, diffDeps_self]
  refine ⟨hself, fun fs => hself _, ?_⟩
  intro existing detected answer
  by_cases hc : compareContexts existing detected = []
  · simp [initCommand, hc]
  · have hlen : (compareContexts existing detected).length ≠ 0 := by
      simpa [List.length_eq_zero] using hc
    cases answer <;> simp [initCommand, hlen, hc]

/-- Witness for `c6_diff_idempotent` at a concrete profile. -/
theorem c6_diff_idempotent_witness :
    compareContexts storedJs storedJs = []
    ∧ (initCommand (some storedJs) storedJs false true).upToDate = true := by
  refine ⟨c6_diff_idempotent.1 storedJs, ?_⟩
  exact (c6_diff_idempotent.2.2 storedJs storedJs true).mpr (c6_diff_idempotent.1 storedJs)

/-! ### Claim C4 — shape and order of the diff -/

/-- Modelled from the spec's words (§4.6): presence-based three-way
comparison of one scalar field — `added` when stored absent and detected
present, `removed` when stored present and detected absent, `changed` when
both present and different. -/
def specScalar (fieldName : String) (oldVal newVal : Option String) :
    List ContextChange :=
  if oldVal = newVal then []
  else
    match oldVal, newVal with
    | none, some v => [ { field := fieldName, type := .added, newValue := some v } ]
    | some o, none => [ { field := fieldName, type := .removed, oldValue := some o } ]
    | some o, some v =>
      [ { field := fieldName, type := .changed, oldValue := some o, newValue := some v } ]
    | none, none => []

/-- Modelled from the spec's words: the same presence-based three-way
comparison for a directory role, under field name `directories.<role>`
(value strings carry the trailing slash the reconciler appends). -/
def specDir (role : String) (oldVal newVal : Option String) :
    List ContextChange :=
  if oldVal = newVal then []
  else
    match oldVal, newVal with
    | none, some v =>
      [ { field := "directories." ++ role, type := .added, newValue := some (v ++ "/") } ]
    | some o, none =>
      [ { field := "directories." ++ role, type := .removed, oldValue := some (o ++ "/") } ]
    | some o, some v =>
      [ { field := "directories." ++ role, type := .changed,
          oldValue := some (o ++ "/"), newValue := some (v ++ "/") } ]
    | none, none => []

/-- Modelled from the spec's words: dependencies compared as unordered
sets, one `added` record per dependency only in detected (in detected
order), then one `removed` record per dependency only in stored (in stored
order). -/
def specDeps (oldList newList : List String) : List ContextChange :=
  ((dedupFirst newList).filter (fun dep => decide (dep ∉ oldList))).map
      (fun dep => { field := "dependency", type := .added, newValue := some dep })
    ++ ((dedupFirst oldList).filter (fun dep => decide (dep ∉ newList))).map
      (fun dep => { field := "dependency", type := .removed, oldValue := some dep })

/-- Modelled from the spec's words: the full diff — scalars first in the
order language, framework, testRunner, directory roles second, dependency
additions then removals last. -/
def specDiff (existing detected : ProjectContext) : List ContextChange :=
  let oldDirs := existing.directories.getD {}
  let newDirs := detected.directories.getD {}
  specScalar "language" existing.language detected.language
    ++ specScalar "framework" existing.framework detected.framework
    ++ specScalar "testRunner" existing.testRunner detected.testRunner
    ++ (specDir "source" oldDirs.source newDirs.source
      ++ specDir "tests" oldDirs.tests newDirs.tests
      ++ specDir "components" oldDirs.components newDirs.components)
    ++ specDeps (existing.dependencies.getD []) (detected.dependencies.getD [])

/-- A profile none of whose present scalar or directory values is the empty
string (every tag, path or name the detector can produce is non-empty). -/
abbrev NoEmptyStrings (c : ProjectContext) : Prop :=
  c.language ≠ some "" ∧ c.framework ≠ some "" ∧ c.testRunner ≠ some ""
    ∧ (c.directories.getD {}).source ≠ some ""
    ∧ (c.directories.getD {}).tests ≠ some ""
    ∧ (c.directories.getD {}).components ≠ some ""

/-- A stored profile whose language is present but empty. -/
def c4Stored : ProjectContext := { language := some "" }

/-- C4 counterexample: with stored language `""` (present) and detected
language absent, the two values differ, yet `compareContexts` emits no
record at all — the JavaScript truthiness tests treat the empty string as
absent, so neither the `removed` branch nor any other fires.  This refutes
the claim's "for each of language, framework, testRunner whose values
differ, exactly one change record" over all profile pairs. -/
theorem c4_counterexample :
    c4Stored.language = some "" ∧ ({} : ProjectContext).language = none
      ∧ c4Stored.language ≠ ({} : ProjectContext).language
      ∧ compareContexts c4Stored {} = [] := by
  decide

theorem diffScalar_spec (f : String) (o n : Option String)
    (ho : o ≠ some "") (hn : n ≠ some "") : diffScalar f o n = specScalar f o n := by
  cases o with
  | none =>
    cases n with
    | none => rfl
    | some v =>
      have hv : v ≠ "" := fun h => hn (by rw [h])
      simp [diffScalar, specScalar, optTruthy, hv]
  | some s =>
    have hs : s ≠ "" := fun h => ho (by rw [h])
    cases n with
    | none => simp [diffScalar, specScalar, optTruthy, hs]
    | some v =>
      have hv : v ≠ "" := fun h => hn (by rw [h])
      by_cases hev : s = v
      · simp [diffScalar, specScalar, hev]
      · simp [diffScalar, specScalar, optTruthy, hs, hv, hev]

theorem diffDir_spec (role : String) (o n : Option String)
    (ho : o ≠ some "") (hn : n ≠ some "") : diffDir role o n = specDir role o n := by
  cases o with
  | none =>
    cases n with
    | none => rfl
    | some v =>
      have hv : v ≠ "" := fun h => hn (by rw [h])
      simp [diffDir, specDir, optTruthy, hv]
  | some s =>
    have hs : s ≠ "" := fun h => ho (by rw [h])
    cases n with
    | none => simp [diffDir, specDir, optTruthy, hs]
    | some v =>
      have hv : v ≠ "" := fun h => hn (by rw [h])
      by_cases hev : s = v
      · simp [diffDir, specDir, hev]
      · simp [diffDir, specDir, optTruthy, hs, hv, hev]

theorem diffDeps_spec (oldL newL : List String) :
    diffDeps oldL newL = specDeps oldL newL := by
  unfold diffDeps specDeps
  have h1 : ∀ dep ∈ dedupFirst newL,
      (!(oldL.contains dep)) = decide (dep ∉ oldL) := by
    intro dep _
    simp
  have h2 : ∀ dep ∈ dedupFirst oldL,
      (!(newL.contains dep)) = decide (dep ∉ newL) := by
    intro dep _
    simp
  rw [List.filter_congr h1, List.filter_congr h2]

/-- C4 amended: for every pair of profiles whose present scalar and
directory values are non-empty strings, the diff is exactly the
presence-based record list the claim describes, in the claimed order —
scalars (language, framework, testRunner), then directory roles, then
dependency additions in detected order followed by removals in stored
order.  (With an empty-string value the truthiness tests classify by
truthiness instead of presence: an empty-vs-absent difference emits no
record, and an empty-to-value change is emitted as `added`.) -/
theorem c4_diff_shape (existing detected : ProjectContext)
    (he : NoEmptyStrings existing) (hd : NoEmptyStrings detected) :
    compareContexts existing detected = specDiff existing detected := by
  obtain ⟨he1, he2, he3, he4, he5, he6⟩ := he
  obtain ⟨hd1, hd2, hd3, hd4, hd5, hd6⟩ := hd
  unfold compareContexts specDiff dirChanges
  dsimp only
  rw [diffScalar_spec _ _ _ he1 hd1, diffScalar_spec _ _ _ he2 hd2,
    diffScalar_spec _ _ _ he3 hd3, diffDir_spec _ _ _ he4 hd4,
    diffDir_spec _ _ _ he5 hd5, diffDir_spec _ _ _ he6 hd6, diffDeps_spec]

/-- Stored profile of the spec's worked diff example. -/
def c4ex1 : ProjectContext := { language := some "javascript" }

/-- Detected profile of the spec's worked diff example. -/
def c4ex2 : ProjectContext := { language := some "typescript", framework := some "react" }

/-- Witness for `c4_diff_shape`, instantiated at the spec's example: the
diff is exactly the `changed` language record followed by the `added`
framework record. -/
theorem c4_diff_shape_witness :
    specDiff c4ex1 c4ex2 = compareContexts c4ex1 c4ex2
    ∧ compareContexts c4ex1 c4ex2
      = [ { field := "language", type := .changed,
            oldValue := some "javascript", newValue := some "typescript" },
          { field := "framework", type := .added, newValue := some "react" } ] := by
  refine ⟨(c4_diff_shape c4ex1 c4ex2 (by decide) (by decide)).symm, ?_⟩
  decide

/-! ### Claim C9 — value formatting of the emitted records -/

/-- What claim C9 asserts of a single record `r` of
`compareContexts existing detected`: a directory record's present value
strings are the corresponding profile's path with `/` appended, while
scalar and dependency records carry the corresponding source strings
unmodified. -/
def SlashFormatting (existing detected : ProjectContext) (r : ContextChange) : Prop :=
  (r.field = "language"
      ∧ (∀ s, r.oldValue = some s → existing.language = some s)
      ∧ (∀ s, r.newValue = some s → detected.language = some s))
  ∨ (r.field = "framework"
      ∧ (∀ s, r.oldValue = some s → existing.framework = some s)
      ∧ (∀ s, r.newValue = some s → detected.framework = some s))
  ∨ (r.field = "testRunner"
      ∧ (∀ s, r.oldValue = some s → existing.testRunner = some s)
      ∧ (∀ s, r.newValue = some s → detected.testRunner = some s))
  ∨ (r.field = "directories.source"
      ∧ (∀ s, r.oldValue = some s →
          ∃ p, (existing.directories.getD {}).source = some p ∧ s = p ++ "/")
      ∧ (∀ s, r.newValue = some s →
          ∃ p, (detected.directories.getD {}).source = some p ∧ s = p ++ "/"))
  ∨ (r.field = "directories.tests"
      ∧ (∀ s, r.oldValue = some s →
          ∃ p, (existing.directories.getD {}).tests = some p ∧ s = p ++ "/")
      ∧ (∀ s, r.newValue = some s →
          ∃ p, (detected.directories.getD {}).tests = some p ∧ s = p ++ "/"))
  ∨ (r.field = "directories.components"
      ∧ (∀ s, r.oldValue = some s →
          ∃ p, (existing.directories.getD {}).components = some p ∧ s = p ++ "/")
      ∧ (∀ s, r.newValue = some s →
          ∃ p, (detected.directories.getD {}).components = some p ∧ s = p ++ "/"))
  ∨ (r.field = "dependency"
      ∧ (∀ s, r.oldValue = some s → s ∈ existing.dependencies.getD [])
      ∧ (∀ s, r.newValue = some s → s ∈ detected.dependencies.getD []))

theorem diffScalar_mem (f : String) (o n : Option String) (r : ContextChange)
    (hr : r ∈ diffScalar f o n) :
    r.field = f ∧ (∀ s, r.oldValue = some s → o = some s)
      ∧ (∀ s, r.newValue = some s → n = some s) := by
  unfold diffScalar at hr
  repeat' split at hr
  all_goals simp_all

theorem diffDir_mem (role : String) (o n : Option String) (r : ContextChange)
    (hr : r ∈ diffDir role o n) :
    r.field = "directories." ++ role
      ∧ (∀ s, r.oldValue = some s → ∃ p, o = some p ∧ s = p ++ "/")
      ∧ (∀ s, r.newValue = some s → ∃ p, n = some p ∧ s = p ++ "/") := by
  unfold diffDir at hr
  repeat' split at hr
  all_goals simp_all

theorem diffDeps_mem (ol nl : List String) (r : ContextChange)
    (hr : r ∈ diffDeps ol nl) :
    r.field = "dependency" ∧ (∀ s, r.oldValue = some s → s ∈ ol)
      ∧ (∀ s, r.newValue = some s → s ∈ nl) := by
  unfold diffDeps at hr
  rcases List.mem_append.mp hr with h | h
  · obtain ⟨dep, hdep, hrec⟩ := List.mem_map.mp h
    subst hrec
    refine ⟨rfl, by simp, ?_⟩
    intro s hs
    obtain rfl : dep = s := by simpa using hs
    exact mem_dedupFirst (List.mem_of_mem_filter hdep)
  · obtain ⟨dep, hdep, hrec⟩ := List.mem_map.mp h
    subst hrec
    refine ⟨rfl, ?_, by simp⟩
    intro s hs
    obtain rfl : dep = s := by simpa using hs
    exact mem_dedupFirst (List.mem_of_mem_filter hdep)

/-- C9: every record of `compareContexts` satisfies `SlashFormatting` —
directory-role records carry the profile path with a trailing slash
appended, scalar and dependency records carry the raw profile strings. -/
theorem c9_slash_formatting (existing detected : ProjectContext) (r : ContextChange)
    (hr : r ∈ compareContexts existing detected) :
    SlashFormatting existing detected r := by
  unfold compareContexts dirChanges at hr
  unfold SlashFormatting
  simp only [List.append_assoc, List.mem_append] at hr
  rcases hr with h | h | h | h | h | h | h
  · exact Or.inl (diffScalar_mem _ _ _ _ h)
  · exact Or.inr (Or.inl (diffScalar_mem _ _ _ _ h))
  · exact Or.inr (Or.inr (Or.inl (diffScalar_mem _ _ _ _ h)))
  · exact Or.inr (Or.inr (Or.inr (Or.inl (diffDir_mem _ _ _ _ h))))
  · exact Or.inr (Or.inr (Or.inr (Or.inr (Or.inl (diffDir_mem _ _ _ _ h)))))
  · exact Or.inr (Or.inr (Or.inr (Or.inr (Or.inr (Or.inl (diffDir_mem _ _ _ _ h))))))
  · exact Or.inr (Or.inr (Or.inr (Or.inr (Or.inr (Or.inr (diffDeps_mem _ _ _ h))))))

/-- Profiles and record for the C9 witness. -/
def c9ex1 : ProjectContext := { directories := some { source := some "src" } }

def c9ex2 : ProjectContext := { directories := some { source := some "lib" } }

def c9rec : ContextChange :=
  { field := "directories.source", type := .changed,
    oldValue := some "src/", newValue := some "lib/" }

/-- Witness for `c9_slash_formatting` at a concrete directory change. -/
theorem c9_slash_formatting_witness : SlashFormatting c9ex1 c9ex2 c9rec :=
  c9_slash_formatting c9ex1 c9ex2 c9rec (by decide)

/-! ### Claim C2 — notable dependencies -/

/-- Names of the merged dependency set, in merged iteration order. -/
def mergedDepNames (pkg : PkgJson) : List String :=
  (mergeObjStr pkg.dependencies pkg.devDependencies).map (fun p => p.1)

/-- Modelled from the spec's words: the first five names of the merged
dependency iteration order after excluding (a) names starting with
`@types/`, (b) the tooling names typescript, prettier, eslint, (c) any name
already chosen as the framework or testRunner value. -/
def specNotable (names : List String) (fw tr : Option String) : List String :=
  (((names.filter (fun dep => !(strStarts dep "@types/"))).filter
      (fun dep => decide (dep ∉ [ "typescript", "prettier", "eslint" ]))).filter
      (fun dep => decide (fw ≠ some dep ∧ tr ≠ some dep))).take 5

theorem jsNotable_characterization (allDeps : List (String × String))
    (c : ProjectContext) :
    (jsNotable allDeps c).dependencies
      = (if specNotable (allDeps.map (fun p => p.1)) c.framework c.testRunner = []
         then c.dependencies
         else some (specNotable (allDeps.map (fun p => p.1)) c.framework c.testRunner))
    ∧ (jsNotable allDeps c).framework = c.framework
    ∧ (jsNotable allDeps c).testRunner = c.testRunner := by
  have hpred :
      ((((allDeps.map (fun p => p.1)).filter
          (fun dep => !(strStarts dep "@types/"))).filter
          (fun dep => !(dep = "typescript" || dep = "prettier" || dep = "eslint"))).filter
          (fun dep => !(c.framework = some dep) && !(c.testRunner = some dep))).take 5
        = specNotable (allDeps.map (fun p => p.1)) c.framework c.testRunner := by
    unfold specNotable
    have h2 : ∀ dep ∈ (allDeps.map (fun p => p.1)).filter
          (fun dep => !(strStarts dep "@types/")),
        (!(dep = "typescript" || dep = "prettier" || dep = "eslint"))
          = decide (dep ∉ [ "typescript", "prettier", "eslint" ]) := by
      intro dep _
      simp [decide_not, Bool.and_assoc]
    rw [List.filter_congr h2]
    have h3 : ∀ dep ∈ ((allDeps.map (fun p => p.1)).filter
          (fun dep => !(strStarts dep "@types/"))).filter
          (fun dep => decide (dep ∉ [ "typescript", "prettier", "eslint" ])),
        (!(c.framework = some dep) && !(c.testRunner = some dep))
          = decide (c.framework ≠ some dep ∧ c.testRunner ≠ some dep) := by
      intro dep _
      simp [decide_not]
    rw [List.filter_congr h3]
  refine ⟨?_, rfl, rfl⟩
  unfold jsNotable
  dsimp only
  rw [hpred]
  by_cases hempty : specNotable (allDeps.map (fun p => p.1)) c.framework c.testRunner = []
  · simp [hempty]
  · have hlen : 0 < (specNotable (allDeps.map (fun p => p.1)) c.framework c.testRunner).length :=
      List.length_pos.mpr hempty
    simp [hempty, hlen]

theorem jsLang_proj (fs : FS) (a : List (String × String)) (c : ProjectContext) :
    (jsLang fs a c).dependencies = c.dependencies
      ∧ (jsLang fs a c).framework = c.framework
      ∧ (jsLang fs a c).testRunner = c.testRunner :=
  ⟨rfl, rfl, rfl⟩

theorem jsFramework_deps (a : List (String × String)) (c : ProjectContext) :
    (jsFramework a c).dependencies = c.dependencies
      ∧ (jsFramework a c).testRunner = c.testRunner :=
  ⟨rfl, rfl⟩

theorem jsTest_deps (a : List (String × String)) (c : ProjectContext) :
    (jsTest a c).dependencies = c.dependencies
      ∧ (jsTest a c).framework = c.framework :=
  ⟨rfl, rfl⟩

/-- The JS/TS classifier's context just before notable-dependency
extraction has no `dependencies` key when started from the empty context. -/
theorem jsChain_deps_none (fs : FS) (a : List (String × String)) :
    (jsTest a (jsFramework a (jsLang fs a ({} : ProjectContext)))).dependencies = none := by
  rw [(jsTest_deps a _).1, (jsFramework_deps a _).1, (jsLang_proj fs a _).1]

/-- Characterization of the JS/TS block's `dependencies` output. -/
theorem jsBlock_dependencies (fs : FS) (pkg : PkgJson)
    (hpkg : fs.packageJson = some (some pkg)) :
    (jsBlock fs ({} : ProjectContext)).dependencies
      = (if specNotable (mergedDepNames pkg) (jsBlock fs ({} : ProjectContext)).framework
            (jsBlock fs ({} : ProjectContext)).testRunner = []
         then none
         else some (specNotable (mergedDepNames pkg)
            (jsBlock fs ({} : ProjectContext)).framework
            (jsBlock fs ({} : ProjectContext)).testRunner)) := by
  have hblock : jsBlock fs ({} : ProjectContext)
      = jsNotable (mergeObjStr pkg.dependencies pkg.devDependencies)
          (jsTest (mergeObjStr pkg.dependencies pkg.devDependencies)
            (jsFramework (mergeObjStr pkg.dependencies pkg.devDependencies)
              (jsLang fs (mergeObjStr pkg.dependencies pkg.devDependencies)
                ({} : ProjectContext)))) := by
    unfold jsBlock
    rw [hpkg]
  obtain ⟨hd, hf, ht⟩ := jsNotable_characterization
    (mergeObjStr pkg.dependencies pkg.devDependencies)
    (jsTest (mergeObjStr pkg.dependencies pkg.devDependencies)
      (jsFramework (mergeObjStr pkg.dependencies pkg.devDependencies)
        (jsLang fs (mergeObjStr pkg.dependencies pkg.devDependencies)
          ({} : ProjectContext))))
  rw [hblock, hd, hf, ht, jsChain_deps_none, mergedDepNames]

/-- Every `dependencies` value the JS/TS block produces from the empty
context has length at most five. -/
theorem jsBlock_depsLe5 (fs : FS) (ds : List String)
    (h : (jsBlock fs ({} : ProjectContext)).dependencies = some ds) :
    ds.length ≤ 5 := by
  match hpkg : fs.packageJson with
  | none =>
    rw [jsBlock, hpkg] at h
    simp at h
  | some none =>
    rw [jsBlock, hpkg] at h
    simp at h
  | some (some pkg) =>
    rw [jsBlock_dependencies fs pkg hpkg] at h
    split at h
    · simp at h
    · obtain rfl : _ = ds := Option.some.inj h
      exact List.length_take_le 5 _

theorem swiftBlock_depsLe5 (fs : FS) (c : ProjectContext)
    (h : ∀ ds, c.dependencies = some ds → ds.length ≤ 5) :
    ∀ ds, (swiftBlock fs c).dependencies = some ds → ds.length ≤ 5 := by
  intro ds hds
  unfold swiftBlock at hds
  by_cases hsw : (fs.packageSwift.isSome || fs.hasXcodeProj) = true
  case neg =>
    rw [if_neg hsw] at hds
    exact h ds hds
  case pos =>
    rw [if_pos hsw] at hds
    rcases hps : fs.packageSwift with _ | txt <;>
      rcases hpsd : fs.packageSwiftDeps with _ | pds <;>
        rcases hpf : fs.podfile with _ | praw <;>
          rcases hpd : fs.podfileDeps with _ | podds <;>
            rcases hcd : c.dependencies with _ | cds <;>
              simp only [hps, hpsd, hpf, hpd, hcd] at hds
    all_goals
      first
        | (obtain rfl := Option.some.inj hds; exact List.length_take_le 5 _)
        | (obtain rfl := Option.some.inj hds; exact h _ hcd)
        | exact h ds hds
        | simp at hds

theorem jvmBlock_deps (fs : FS) (c : ProjectContext) :
    (jvmBlock fs c).dependencies = c.dependencies := by
  unfold jvmBlock
  dsimp only
  repeat' split
  all_goals rfl

theorem csharpBlock_deps (fs : FS) (c : ProjectContext) :
    (csharpBlock fs c).dependencies = c.dependencies := by
  unfold csharpBlock
  dsimp only
  repeat' split
  all_goals rfl

theorem rubyBlock_deps (fs : FS) (c : ProjectContext) :
    (rubyBlock fs c).dependencies = c.dependencies := by
  unfold rubyBlock
  dsimp only
  repeat' split
  all_goals rfl

theorem phpBlock_deps (fs : FS) (c : ProjectContext) :
    (phpBlock fs c).dependencies = c.dependencies := by
  unfold phpBlock
  dsimp only
  repeat' split
  all_goals rfl

theorem pythonBlock_deps (fs : FS) (c : ProjectContext) :
    (pythonBlock fs c).dependencies = c.dependencies := by
  unfold pythonBlock
  dsimp only
  repeat' split
  all_goals rfl

theorem goBlock_deps (fs : FS) (c : ProjectContext) :
    (goBlock fs c).dependencies = c.dependencies := by
  unfold goBlock
  dsimp only
  repeat' split
  all_goals rfl

theorem rustBlock_deps (fs : FS) (c : ProjectContext) :
    (rustBlock fs c).dependencies = c.dependencies := by
  unfold rustBlock
  dsimp only
  repeat' split
  all_goals rfl

theorem elixirBlock_deps (fs : FS) (c : ProjectContext) :
    (elixirBlock fs c).dependencies = c.dependencies := by
  unfold elixirBlock
  repeat' split
  all_goals rfl

theorem scalaBlock_deps (fs : FS) (c : ProjectContext) :
    (scalaBlock fs c).dependencies = c.dependencies := by
  unfold scalaBlock
  dsimp only
  repeat' split
  all_goals rfl

theorem cppBlock_deps (fs : FS) (c : ProjectContext) :
    (cppBlock fs c).dependencies = c.dependencies := by
  unfold cppBlock
  dsimp only
  repeat' split
  all_goals rfl

theorem dartBlock_deps (fs : FS) (c : ProjectContext) :
    (dartBlock fs c).dependencies = c.dependencies := by
  unfold dartBlock
  repeat' split
  all_goals rfl

theorem dirBlock_deps (fs : FS) (c : ProjectContext) :
    (dirBlock fs c).dependencies = c.dependencies := by
  simp only [dirBlock]
  split <;> simp

/-- Every profile detection produces has at most five notable
dependencies. -/
theorem detect_depsLe5 (fs : FS) (ds : List String)
    (h : (detectProjectContext fs).dependencies = some ds) : ds.length ≤ 5 := by
  unfold detectProjectContext at h
  rw [dirBlock_deps, dartBlock_deps, cppBlock_deps, scalaBlock_deps, elixirBlock_deps,
    rustBlock_deps, goBlock_deps, pythonBlock_deps, phpBlock_deps, rubyBlock_deps,
    csharpBlock_deps, jvmBlock_deps] at h
  exact swiftBlock_depsLe5 fs _ (jsBlock_depsLe5 fs) ds h

/-- C2: for every parsed package.json, the JS/TS classifier's
`dependencies` field is exactly the first five names of the merged
dependency iteration order after the three exclusions (the key is left
unset when that list is empty), computed against the framework and
testRunner values the classifier chose; and every detected profile's
dependency list has length at most five. -/
theorem c2_notable_dependencies :
    (∀ fs pkg, fs.packageJson = some (some pkg) →
      (jsBlock fs ({} : ProjectContext)).dependencies
        = (if specNotable (mergedDepNames pkg)
              (jsBlock fs ({} : ProjectContext)).framework
              (jsBlock fs ({} : ProjectContext)).testRunner = []
           then none
           else some (specNotable (mergedDepNames pkg)
              (jsBlock fs ({} : ProjectContext)).framework
              (jsBlock fs ({} : ProjectContext)).testRunner)))
    ∧ (∀ fs ds, (detectProjectContext fs).dependencies = some ds → ds.length ≤ 5) :=
  ⟨fun fs pkg hpkg => jsBlock_dependencies fs pkg hpkg,
   fun fs ds h => detect_depsLe5 fs ds h⟩

/-- A manifest with ten eligible dependencies plus excluded ones. -/
def fsTenDeps : FS :=
  { packageJson := some (some
      { dependencies :=
          [ ("react", "18"), ("a", "1"), ("b", "1"), ("@types/node", "1"),
            ("c", "1"), ("d", "1"), ("e", "1"), ("f", "1") ],
        devDependencies :=
          [ ("typescript", "5"), ("jest", "29"), ("g", "1"), ("h", "1"),
            ("i", "1"), ("j", "1") ] }) }

/-- Witness for `c2_notable_dependencies`: with ten eligible names in
declaration order (react and jest are the chosen framework/testRunner,
`@types/node` and `typescript` are excluded), exactly the first five
eligible names survive. -/
theorem c2_notable_dependencies_witness :
    (jsBlock fsTenDeps ({} : ProjectContext)).dependencies
        = some [ "a", "b", "c", "d", "e" ]
    ∧ (detectProjectContext fsTenDeps).dependencies = some [ "a", "b", "c", "d", "e" ]
    ∧ [ "a", "b", "c", "d", "e" ].length ≤ 5 := by
  refine ⟨?_, by decide, by decide⟩
  rw [c2_notable_dependencies.1 fsTenDeps _ rfl]
  decide

/-! ### Claim C3 — next.js over react -/

/-- A package.json declaring `react` with a version and `next` with an
empty version string (npm treats the empty string as "any version"). -/
def fsNextEmpty : FS :=
  { packageJson := some (some
      { dependencies := [ ("react", "^18.0.0"), ("next", "") ] }) }

/-- C3 counterexample: the merged dependency set of `fsNextEmpty` contains
both `react` and `next`, yet detection reports `react`: the chain's
`if (allDeps['next'])` test is JavaScript truthiness, and the empty version
string is falsy, so the `next` branch never fires. -/
theorem c3_counterexample :
    (lookupDep (mergeObjStr
        [ ("react", "^18.0.0"), ("next", "") ] []) "next").isSome = true
    ∧ (lookupDep (mergeObjStr
        [ ("react", "^18.0.0"), ("next", "") ] []) "react").isSome = true
    ∧ (detectProjectContext fsNextEmpty).framework = some "react"
    ∧ (detectProjectContext fsNextEmpty).framework ≠ some "next.js" := by
  decide

theorem jsFramework_next (a : List (String × String)) (c : ProjectContext)
    (h : hasDep a "next" = true) :
    (jsFramework a c).framework = some "next.js" := by
  unfold jsFramework
  rw [if_pos h]

/-- C3 amended: for every package.json whose merged dependency set contains
both `react` and `next` with truthy (non-empty) version strings, the JS/TS
classifier sets framework to `next.js` and never to `react`, independent of
key insertion order, because the ordered chain tests `next` before `react`.
(An entry whose merged version string is empty is falsy and skipped by the
membership test, as the counterexample shows.) -/
theorem c3_next_over_react (fs : FS) (pkg : PkgJson)
    (hpkg : fs.packageJson = some (some pkg))
    (hnext : hasDep (mergeObjStr pkg.dependencies pkg.devDependencies) "next" = true)
    (hreact : hasDep (mergeObjStr pkg.dependencies pkg.devDependencies) "react" = true) :
    (jsBlock fs ({} : ProjectContext)).framework = some "next.js"
    ∧ (jsBlock fs ({} : ProjectContext)).framework ≠ some "react" := by
  have hfw : (jsBlock fs ({} : ProjectContext)).framework = some "next.js" := by
    unfold jsBlock
    rw [hpkg]
    dsimp only
    rw [(jsNotable_characterization _ _).2.1, (jsTest_deps _ _).2,
      jsFramework_next _ _ hnext]
  exact ⟨hfw, by rw [hfw]; decide⟩

/-- A package.json declaring both `react` and `next` with real versions,
`next` inserted last. -/
def fsReactNext : FS :=
  { packageJson := some (some
      { dependencies := [ ("react", "^18.0.0"), ("next", "^14.0.0") ] }) }

/-- Witness for `c3_next_over_react`. -/
theorem c3_next_over_react_witness :
    (jsBlock fsReactNext ({} : ProjectContext)).framework = some "next.js"
    ∧ (jsBlock fsReactNext ({} : ProjectContext)).framework ≠ some "react" :=
  c3_next_over_react fsReactNext _ rfl (by decide) (by decide)

/-! ### JSON values, printing and parsing — the persistence layer

`loadProjectContext` (project-context.ts lines 11-24) is `JSON.parse` of the
state-file text with every failure (missing file, unreadable file, parse
error) mapped to `null`, and the successful value returned *as is* — the
`as ProjectContext` cast performs no conversion or validation, so the
loaded runtime value is whatever JSON the file held.  `saveProjectContext`
(lines 26-29) writes `JSON.stringify(context, null, 2) + '\n'`.

`Json` models JavaScript runtime values produced by `JSON.parse`; a number
is kept as its source lexeme (its numeric value is irrelevant to the
persistence contract, which never serializes numbers). -/

inductive Json where
  | null
  | bool (b : Bool)
  | num (raw : String)
  | str (s : String)
  | arr (elems : List Json)
  | obj (fields : List (String × Json))

/-- Indentation blanks. -/
def spacesL (n : Nat) : List Char := List.replicate n ' '

/-- The character escaping of `JSON.stringify`: quote, backslash and the
five short control escapes, any other control character as `\u00xx`. -/
def escCharL (c : Char) : List Char :=
  if c = '"' then [ '\\', '"' ]
  else if c = '\\' then [ '\\', '\\' ]
  else if c = '\n' then [ '\\', 'n' ]
  else if c = '\r' then [ '\\', 'r' ]
  else if c = '\t' then [ '\\', 't' ]
  else if c = '\x08' then [ '\\', 'b' ]
  else if c = '\x0c' then [ '\\', 'f' ]
  else if c.toNat < 32 then
    [ '\\', 'u', '0', '0', Nat.digitChar (c.toNat / 16), Nat.digitChar (c.toNat % 16) ]
  else [ c ]

def escL : List Char → List Char
  | [] => []
  | c :: cs => escCharL c ++ escL cs

/-- A quoted JSON string literal. -/
def quoteL (s : String) : List Char := '"' :: (escL s.data ++ [ '"' ])

mutual

/-- `JSON.stringify(v, null, 2)` at indentation level `ind`: children one
level deeper, closing bracket at the current level, empty composites
printed inline. -/
def printL (ind : Nat) : Json → List Char
  | .null => 'n' :: [ 'u', 'l', 'l' ]
  | .bool true => 't' :: [ 'r', 'u', 'e' ]
  | .bool false => 'f' :: [ 'a', 'l', 's', 'e' ]
  | .num raw => raw.data
  | .str s => quoteL s
  | .arr [] => [ '[', ']' ]
  | .arr (x :: xs) =>
    '[' :: '\n' :: (itemsL (ind + 2) (x :: xs) ++ '\n' :: (spacesL ind ++ [ ']' ]))
  | .obj [] => [ '{', '}' ]
  | .obj (f :: fs2) =>
    '{' :: '\n' :: (fieldsL (ind + 2) (f :: fs2) ++ '\n' :: (spacesL ind ++ [ '}' ]))

def itemsL (ind : Nat) : List Json → List Char
  | [] => []
  | [ x ] => spacesL ind ++ printL ind x
  | x :: y :: ys =>
    spacesL ind ++ (printL ind x ++ ',' :: '\n' :: itemsL ind (y :: ys))

def fieldsL (ind : Nat) : List (String × Json) → List Char
  | [] => []
  | [ (k, v) ] => spacesL ind ++ (quoteL k ++ ':' :: ' ' :: printL ind v)
  | (k, v) :: g :: gs =>
    spacesL ind ++ (quoteL k ++ ':' :: ' ' :: (printL ind v ++ ',' :: '\n' :: fieldsL ind (g :: gs)))

end

/-- `JSON.stringify(v, null, 2)`. -/
def stringify (j : Json) : String := String.mk (printL 0 j)

/-- One optional string-valued key of the serialized profile:
`JSON.stringify` skips keys holding `undefined`. -/
def optStrField (k : String) (o : Option String) : List (String × Json) :=
  match o with
  | none => []
  | some s => [ (k, Json.str s) ]

/-- The runtime JSON object of a `directories` value. -/
def encodeDirs (d : Directories) : Json :=
  Json.obj (optStrField "source" d.source ++ optStrField "tests" d.tests
    ++ optStrField "components" d.components)

/-- The runtime JSON object of a `ProjectContext`: present keys only, in
the interface's declaration order.  (At runtime the key order follows the
assignment order of whichever detection branch ran; key order never
affects parsing, equality of loaded values, or any claim below.) -/
def encodeCtx (c : ProjectContext) : Json :=
  Json.obj (optStrField "language" c.language ++ optStrField "framework" c.framework
    ++ optStrField "testRunner" c.testRunner
    ++ ((match c.directories with
        | none => []
        | some d => [ ("directories", encodeDirs d) ])
      ++ (match c.dependencies with
        | none => []
        | some ds => [ ("dependencies", Json.arr (ds.map Json.str)) ])))

/-- JSON whitespace. -/
def isWsChar (c : Char) : Bool := c = ' ' || c = '\n' || c = '\t' || c = '\r'

def skipWs : List Char → List Char
  | [] => []
  | c :: cs => if isWsChar c then skipWs cs else c :: cs

/-- Value of one hex digit. -/
def hexVal (c : Char) : Option Nat :=
  if '0' ≤ c ∧ c ≤ '9' then some (c.toNat - 48)
  else if 'a' ≤ c ∧ c ≤ 'f' then some (c.toNat - 87)
  else if 'A' ≤ c ∧ c ≤ 'F' then some (c.toNat - 55)
  else none

/-- Four hex digits of a `\uXXXX` escape, decoded to the character they
denote. -/
def hexQuad : List Char → Option (Char × List Char)
  | d1 :: d2 :: d3 :: d4 :: r2 =>
    match hexVal d1, hexVal d2, hexVal d3, hexVal d4 with
    | some a, some b, some c2, some d =>
      some (Char.ofNat (4096 * a + 256 * b + 16 * c2 + d), r2)
    | _, _, _, _ => none
  | _ => none

/-- Body of a JSON string literal after the opening quote: ends at an
unescaped quote, rejects raw control characters, decodes the standard
escapes (JSON.parse semantics).  The fuel only bounds the recursion: every
step consumes at least one input character, so `length + 1` at the call
sites makes the bound unreachable. -/
def parseStrBody : Nat → List Char → List Char → Option (String × List Char)
  | 0, _, _ => none
  | fuel + 1, acc, l =>
    match l with
    | [] => none
    | c :: rest =>
      if c = '"' then some (String.mk acc.reverse, rest)
      else if c = '\\' then
        match rest with
        | [] => none
        | e :: rest2 =>
          if e = '"' then parseStrBody fuel ('"' :: acc) rest2
          else if e = '\\' then parseStrBody fuel ('\\' :: acc) rest2
          else if e = '/' then parseStrBody fuel ('/' :: acc) rest2
          else if e = 'b' then parseStrBody fuel ('\x08' :: acc) rest2
          else if e = 'f' then parseStrBody fuel ('\x0c' :: acc) rest2
          else if e = 'n' then parseStrBody fuel ('\n' :: acc) rest2
          else if e = 'r' then parseStrBody fuel ('\r' :: acc) rest2
          else if e = 't' then parseStrBody fuel ('\t' :: acc) rest2
          else if e = 'u' then
            match hexQuad rest2 with
            | some (d, r2) => parseStrBody fuel (d :: acc) r2
            | none => none
          else none
      else if c.toNat < 32 then none
      else parseStrBody fuel (c :: acc) rest

def isDigitCh (c : Char) : Bool := '0' ≤ c && c ≤ '9'

/-- Longest digit run. -/
def spanDigits : List Char → List Char × List Char
  | [] => ([], [])
  | c :: rest =>
    if isDigitCh c then
      let p := spanDigits rest
      (c :: p.1, p.2)
    else ([], c :: rest)

/-- Integer part of a JSON number: `0`, or a non-zero digit then digits. -/
def parseIntPart : List Char → Option (List Char × List Char)
  | [] => none
  | c :: rest =>
    if c = '0' then some ([ '0' ], rest)
    else if isDigitCh c then
      let p := spanDigits rest
      some (c :: p.1, p.2)
    else none

/-- Optional fraction part: `.` then one or more digits. -/
def parseFracPart : List Char → Option (List Char × List Char)
  | '.' :: rest =>
    match spanDigits rest with
    | ([], _) => none
    | (ds, r) => some ('.' :: ds, r)
  | cs => some ([], cs)

/-- Optional exponent part: `e`/`E`, optional sign, one or more digits. -/
def parseExpPart : List Char → Option (List Char × List Char)
  | [] => some ([], [])
  | c :: rest =>
    if c = 'e' || c = 'E' then
      let sp := match rest with
        | s :: r2 => if s = '+' || s = '-' then (([ s ] : List Char), r2) else (([] : List Char), rest)
        | [] => (([] : List Char), rest)
      match spanDigits sp.2 with
      | ([], _) => none
      | (ds, r) => some (c :: (sp.1 ++ ds), r)
    else some ([], c :: rest)

/-- A JSON number token, kept as its lexeme. -/
def parseNumTok (cs : List Char) : Option (Json × List Char) :=
  let sp := match cs with
    | '-' :: r => (([ '-' ] : List Char), r)
    | _ => (([] : List Char), cs)
  match parseIntPart sp.2 with
  | none => none
  | some (ip, r1) =>
    match parseFracPart r1 with
    | none => none
    | some (fp, r2) =>
      match parseExpPart r2 with
      | none => none
      | some (ep, r3) => some (Json.num (String.mk (sp.1 ++ ip ++ fp ++ ep)), r3)

mutual

/-- One JSON value, dispatched on the first (non-whitespace-stripped)
character; `fuel` bounds the nesting depth. -/
def parseTok : Nat → List Char → Option (Json × List Char)
  | 0, _ => none
  | fuel + 1, cs =>
    match cs with
    | [] => none
    | c :: rest =>
      if c = '"' then
        match parseStrBody (rest.length + 1) [] rest with
        | some (s, r) => some (Json.str s, r)
        | none => none
      else if c = '{' then
        match skipWs rest with
        | '}' :: r => some (Json.obj [], r)
        | _ =>
          match parseFields fuel rest with
          | some (fs2, r) => some (Json.obj fs2, r)
          | none => none
      else if c = '[' then
        match skipWs rest with
        | ']' :: r => some (Json.arr [], r)
        | _ =>
          match parseItems fuel rest with
          | some (vs, r) => some (Json.arr vs, r)
          | none => none
      else if c = 't' then
        match rest with
        | 'r' :: 'u' :: 'e' :: r => some (Json.bool true, r)
        | _ => none
      else if c = 'f' then
        match rest with
        | 'a' :: 'l' :: 's' :: 'e' :: r => some (Json.bool false, r)
        | _ => none
      else if c = 'n' then
        match rest with
        | 'u' :: 'l' :: 'l' :: r => some (Json.null, r)
        | _ => none
      else parseNumTok (c :: rest)

/-- Comma-separated array items up to the closing bracket. -/
def parseItems : Nat → List Char → Option (List Json × List Char)
  | 0, _ => none
  | fuel + 1, cs =>
    match parseTok fuel (skipWs cs) with
    | none => none
    | some (v, r1) =>
      match skipWs r1 with
      | ',' :: r2 =>
        match parseItems fuel r2 with
        | some (vs, r) => some (v :: vs, r)
        | none => none
      | ']' :: r2 => some ([ v ], r2)
      | _ => none

/-- Comma-separated object members up to the closing brace. -/
def parseFields : Nat → List Char → Option (List (String × Json) × List Char)
  | 0, _ => none
  | fuel + 1, cs =>
    match skipWs cs with
    | '"' :: r0 =>
      match parseStrBody (r0.length + 1) [] r0 with
      | none => none
      | some (k, r1) =>
        match skipWs r1 with
        | ':' :: r2 =>
          match parseTok fuel (skipWs r2) with
          | none => none
          | some (v, r3) =>
            match skipWs r3 with
            | ',' :: r4 =>
              match parseFields fuel r4 with
              | some (fs2, r) => some ((k, v) :: fs2, r)
              | none => none
            | '}' :: r4 => some ([ (k, v) ], r4)
            | _ => none
        | _ => none
    | _ => none

end

/-- One JSON value with leading whitespace allowed. -/
def parseVal (fuel : Nat) (cs : List Char) : Option (Json × List Char) :=
  parseTok fuel (skipWs cs)

/-- `JSON.parse`: one value, then only trailing whitespace; `none` models a
thrown `SyntaxError`.  The fuel `length + 1` dominates any nesting depth an
input of that length can produce. -/
def parseJson (s : String) : Option Json :=
  match parseVal (s.data.length + 1) s.data with
  | some (j, rest) => if skipWs rest = [] then some j else none
  | none => none

/-- The project-local state file as the load/save code can observe it. -/
inductive StateFile where
  | absent
  | unreadable
  | present (content : String)

/-- `loadProjectContext`: `null` when the file is missing; a caught
exception (unreadable file or `JSON.parse` throwing) also yields `null`;
otherwise the parsed value is returned unvalidated — the
`as ProjectContext` cast is a compile-time assertion only. -/
def loadProjectContext : StateFile → Option Json
  | .absent => none
  | .unreadable => none
  | .present s => parseJson s

/-- `saveProjectContext`: writes `JSON.stringify(context, null, 2) + '\n'`
wholesale. -/
def saveProjectContext (c : ProjectContext) : StateFile :=
  .present (stringify (encodeCtx c) ++ "\n")

/-! ### Round-trip infrastructure -/

mutual

/-- No `num` node anywhere: holds of every serialized profile (numbers
never appear in one, and a number lexeme need not relex to itself). -/
def numFree : Json → Bool
  | .null => true
  | .bool _ => true
  | .num _ => false
  | .str _ => true
  | .arr xs => numFreeList xs
  | .obj fs2 => numFreeFields fs2

def numFreeList : List Json → Bool
  | [] => true
  | x :: xs => numFree x && numFreeList xs

def numFreeFields : List (String × Json) → Bool
  | [] => true
  | (_, v) :: fs2 => numFree v && numFreeFields fs2

end

mutual

/-- Fuel adequate for parsing a printed value back. -/
def jfuel : Json → Nat
  | .null => 1
  | .bool _ => 1
  | .num _ => 1
  | .str _ => 1
  | .arr xs => 1 + jfuelList xs
  | .obj fs2 => 1 + jfuelFields fs2

def jfuelList : List Json → Nat
  | [] => 1
  | x :: xs => 1 + jfuel x + jfuelList xs

def jfuelFields : List (String × Json) → Nat
  | [] => 1
  | f :: fs2 => 1 + jfuel f.2 + jfuelFields fs2

end

theorem jfuel_pos (j : Json) : 1 ≤ jfuel j := by
  cases j <;> simp [jfuel]

theorem jfuelList_pos (xs : List Json) : 1 ≤ jfuelList xs := by
  cases xs <;> simp [jfuelList] <;> omega

theorem jfuelFields_pos (fs2 : List (String × Json)) : 1 ≤ jfuelFields fs2 := by
  cases fs2 <;> simp [jfuelFields] <;> omega

/-- Whitespace-only character lists. -/
def AllWs (l : List Char) : Prop := ∀ c ∈ l, isWsChar c = true

theorem allWs_nil : AllWs ([] : List Char) := by
  intro c h
  cases h

theorem allWs_cons {c : Char} {l : List Char} (h1 : isWsChar c = true) (h2 : AllWs l) :
    AllWs (c :: l) := by
  intro d hd
  rcases List.mem_cons.mp hd with rfl | hd
  · exact h1
  · exact h2 d hd

theorem allWs_append {a b : List Char} (ha : AllWs a) (hb : AllWs b) : AllWs (a ++ b) := by
  intro d hd
  rcases List.mem_append.mp hd with h | h
  · exact ha d h
  · exact hb d h

theorem allWs_spacesL (n : Nat) : AllWs (spacesL n) := by
  intro c hc
  rw [spacesL] at hc
  rw [List.eq_of_mem_replicate hc]
  rfl

theorem allWs_newline : AllWs ([ '\n' ] : List Char) := by
  intro c hc
  rcases List.mem_singleton.mp hc with rfl
  rfl

theorem skipWs_append_allWs {ws : List Char} (l : List Char) (h : AllWs ws) :
    skipWs (ws ++ l) = skipWs l := by
  induction ws with
  | nil => rfl
  | cons c cs ih =>
    have hc : isWsChar c = true := h c (List.mem_cons_self c cs)
    have hcs : AllWs cs := fun d hd => h d (List.mem_cons_of_mem c hd)
    simp [skipWs, hc, ih hcs]

theorem skipWs_not_ws {c : Char} (l : List Char) (h : isWsChar c = false) :
    skipWs (c :: l) = c :: l := by
  simp [skipWs, h]

theorem skipWs_allWs {ws : List Char} (h : AllWs ws) : skipWs ws = [] := by
  have := skipWs_append_allWs ([] : List Char) h
  simpa using this

/-- `Nat.digitChar` and `hexVal` are mutually inverse below 16. -/
theorem hexVal_digitChar : ∀ n : Nat, n < 16 → hexVal (Nat.digitChar n) = some n := by
  decide

theorem stringMk_data (s : String) : String.mk s.data = s := rfl

theorem escL_cons (c : Char) (cs : List Char) : escL (c :: cs) = escCharL c ++ escL cs := by
  rw [escL]

/-! Single-step reductions of `parseStrBody`. -/

theorem psb_quote (f : Nat) (acc l : List Char) :
    parseStrBody (f + 1) acc ('"' :: l) = some (String.mk acc.reverse, l) := by
  rw [parseStrBody.eq_def]
  simp

theorem psb_esc_quote (f : Nat) (acc l : List Char) :
    parseStrBody (f + 1) acc ('\\' :: '"' :: l) = parseStrBody f ('"' :: acc) l := by
  rw [parseStrBody.eq_def]
  simp

theorem psb_esc_backslash (f : Nat) (acc l : List Char) :
    parseStrBody (f + 1) acc ('\\' :: '\\' :: l) = parseStrBody f ('\\' :: acc) l := by
  rw [parseStrBody.eq_def]
  simp

theorem psb_esc_n (f : Nat) (acc l : List Char) :
    parseStrBody (f + 1) acc ('\\' :: 'n' :: l) = parseStrBody f ('\n' :: acc) l := by
  rw [parseStrBody.eq_def]
  simp

theorem psb_esc_r (f : Nat) (acc l : List Char) :
    parseStrBody (f + 1) acc ('\\' :: 'r' :: l) = parseStrBody f ('\r' :: acc) l := by
  rw [parseStrBody.eq_def]
  simp

theorem psb_esc_t (f : Nat) (acc l : List Char) :
    parseStrBody (f + 1) acc ('\\' :: 't' :: l) = parseStrBody f ('\t' :: acc) l := by
  rw [parseStrBody.eq_def]
  simp

theorem psb_esc_b (f : Nat) (acc l : List Char) :
    parseStrBody (f + 1) acc ('\\' :: 'b' :: l) = parseStrBody f ('\x08' :: acc) l := by
  rw [parseStrBody.eq_def]
  simp

theorem psb_esc_f (f : Nat) (acc l : List Char) :
    parseStrBody (f + 1) acc ('\\' :: 'f' :: l) = parseStrBody f ('\x0c' :: acc) l := by
  rw [parseStrBody.eq_def]
  simp

theorem hexQuad_cons (d1 d2 d3 d4 : Char) (l : List Char) (a b c2 d : Nat)
    (hd1 : hexVal d1 = some a) (hd2 : hexVal d2 = some b)
    (hd3 : hexVal d3 = some c2) (hd4 : hexVal d4 = some d) :
    hexQuad (d1 :: d2 :: d3 :: d4 :: l)
      = some (Char.ofNat (4096 * a + 256 * b + 16 * c2 + d), l) := by
  simp [hexQuad, hd1, hd2, hd3, hd4]

theorem psb_esc_u (f : Nat) (acc l : List Char) (d1 d2 d3 d4 : Char) (a b c2 d : Nat)
    (hd1 : hexVal d1 = some a) (hd2 : hexVal d2 = some b)
    (hd3 : hexVal d3 = some c2) (hd4 : hexVal d4 = some d) :
    parseStrBody (f + 1) acc ('\\' :: 'u' :: d1 :: d2 :: d3 :: d4 :: l)
      = parseStrBody f (Char.ofNat (4096 * a + 256 * b + 16 * c2 + d) :: acc) l := by
  rw [parseStrBody.eq_def]
  simp [hexQuad_cons d1 d2 d3 d4 l a b c2 d hd1 hd2 hd3 hd4]

theorem psb_plain (f : Nat) (acc l : List Char) (c : Char)
    (h1 : ¬c = '"') (h2 : ¬c = '\\') (h3 : ¬c.toNat < 32) :
    parseStrBody (f + 1) acc (c :: l) = parseStrBody f (c :: acc) l := by
  rw [parseStrBody.eq_def]
  simp [h1, h2, h3]

/-- Parsing back one escaped string body: the printer's escaping is
inverted exactly, for every string, with any fuel above the character
count. -/
theorem parseStrBody_escL :
    ∀ (cs : List Char) (f : Nat) (acc rest : List Char), cs.length < f →
      parseStrBody f acc (escL cs ++ '"' :: rest)
        = some (String.mk (acc.reverse ++ cs), rest) := by
  intro cs
  induction cs with
  | nil =>
    intro f acc rest hf
    obtain ⟨f0, rfl⟩ : ∃ f0, f = f0 + 1 := ⟨f - 1, by omega⟩
    rw [show escL [] = [] from rfl, List.nil_append, psb_quote]
    simp
  | cons c cs ih =>
    intro f acc rest hf
    obtain ⟨f0, rfl⟩ : ∃ f0, f = f0 + 1 := ⟨f - 1, by omega⟩
    have hf0 : cs.length < f0 := by
      simp only [List.length_cons] at hf
      omega
    rw [escL_cons, List.append_assoc]
    by_cases h1 : c = '"'
    · subst h1
      rw [show escCharL '"' = [ '\\', '"' ] from by simp [escCharL]]
      simpa [List.append_assoc, psb_esc_quote] using ih f0 ('"' :: acc) rest hf0
    · by_cases h2 : c = '\\'
      · subst h2
        rw [show escCharL '\\' = [ '\\', '\\' ] from by simp [escCharL]]
        simpa [List.append_assoc, psb_esc_backslash] using ih f0 ('\\' :: acc) rest hf0
      · by_cases h3 : c = '\n'
        · subst h3
          rw [show escCharL '\n' = [ '\\', 'n' ] from by simp [escCharL]]
          simpa [List.append_assoc, psb_esc_n] using ih f0 ('\n' :: acc) rest hf0
        · by_cases h4 : c = '\r'
          · subst h4
            rw [show escCharL '\r' = [ '\\', 'r' ] from by simp [escCharL]]
            simpa [List.append_assoc, psb_esc_r] using ih f0 ('\r' :: acc) rest hf0
          · by_cases h5 : c = '\t'
            · subst h5
              rw [show escCharL '\t' = [ '\\', 't' ] from by simp [escCharL]]
              simpa [List.append_assoc, psb_esc_t] using ih f0 ('\t' :: acc) rest hf0
            · by_cases h6 : c = '\x08'
              · subst h6
                rw [show escCharL '\x08' = [ '\\', 'b' ] from by simp [escCharL]]
                simpa [List.append_assoc, psb_esc_b] using ih f0 ('\x08' :: acc) rest hf0
              · by_cases h7 : c = '\x0c'
                · subst h7
                  rw [show escCharL '\x0c' = [ '\\', 'f' ] from by simp [escCharL]]
                  simpa [List.append_assoc, psb_esc_f] using ih f0 ('\x0c' :: acc) rest hf0
                · by_cases h8 : c.toNat < 32
                  · have he : escCharL c =
                        [ '\\', 'u', '0', '0', Nat.digitChar (c.toNat / 16),
                          Nat.digitChar (c.toNat % 16) ] := by
                      simp [escCharL, h1, h2, h3, h4, h5, h6, h7, h8]
                    have hd1 : hexVal (Nat.digitChar (c.toNat / 16)) = some (c.toNat / 16) :=
                      hexVal_digitChar _ (by omega)
                    have hd2 : hexVal (Nat.digitChar (c.toNat % 16)) = some (c.toNat % 16) :=
                      hexVal_digitChar _ (by omega)
                    have hzero : hexVal '0' = some 0 := rfl
                    have hch :
                        Char.ofNat (4096 * 0 + 256 * 0 + 16 * (c.toNat / 16) + c.toNat % 16)
                          = c := by
                      rw [show 4096 * 0 + 256 * 0 + 16 * (c.toNat / 16) + c.toNat % 16
                          = c.toNat from by omega]
                      exact Char.ofNat_toNat c
                    rw [he]
                    simp only [List.cons_append, List.nil_append]
                    rw [psb_esc_u f0 _ _ _ _ _ _ 0 0 (c.toNat / 16) (c.toNat % 16)
                      hzero hzero hd1 hd2, hch]
                    simpa [List.append_assoc] using ih f0 (c :: acc) rest hf0
                  · have he : escCharL c = [ c ] := by
                      simp [escCharL, h1, h2, h3, h4, h5, h6, h7, h8]
                    rw [he]
                    simp only [List.cons_append, List.nil_append]
                    rw [psb_plain f0 _ _ _ h1 h2 h8]
                    simpa [List.append_assoc] using ih f0 (c :: acc) rest hf0

/-- The escaped form is never shorter than the original. -/
theorem escL_length_ge : ∀ cs : List Char, cs.length ≤ (escL cs).length := by
  intro cs
  induction cs with
  | nil => simp [escL]
  | cons c cs ih =>
    rw [escL_cons]
    have hc : 1 ≤ (escCharL c).length := by
      unfold escCharL
      repeat' split
      all_goals simp
    simp only [List.length_append, List.length_cons]
    omega

/-- Every printed value starts with a non-whitespace character that is
neither a closing bracket nor a closing brace. -/
theorem printL_head (ind : Nat) (j : Json) (h : numFree j = true) :
    ∃ c t, printL ind j = c :: t ∧ isWsChar c = false ∧ ¬c = ']' ∧ ¬c = '}' := by
  cases j with
  | null =>
    exact ⟨'n', [ 'u', 'l', 'l' ], by rw [printL], by decide, by decide, by decide⟩
  | bool b =>
    cases b
    · exact ⟨'f', [ 'a', 'l', 's', 'e' ], by rw [printL], by decide, by decide, by decide⟩
    · exact ⟨'t', [ 'r', 'u', 'e' ], by rw [printL], by decide, by decide, by decide⟩
  | num raw => simp [numFree] at h
  | str s =>
    refine ⟨'"', escL s.data ++ [ '"' ], ?_, by decide, by decide, by decide⟩
    rw [printL]
    rfl
  | arr xs =>
    cases xs with
    | nil => exact ⟨'[', [ ']' ], by rw [printL], by decide, by decide, by decide⟩
    | cons x xs =>
      refine ⟨'[', '\n' :: (itemsL (ind + 2) (x :: xs) ++ '\n' :: (spacesL ind ++ [ ']' ])),
        ?_, by decide, by decide, by decide⟩
      rw [printL]
  | obj fs2 =>
    cases fs2 with
    | nil => exact ⟨'{', [ '}' ], by rw [printL], by decide, by decide, by decide⟩
    | cons g gs =>
      refine ⟨'{', '\n' :: (fieldsL (ind + 2) (g :: gs) ++ '\n' :: (spacesL ind ++ [ '}' ])),
        ?_, by decide, by decide, by decide⟩
      rw [printL]

/-- The print fuel bound: a printed value is at least as long as the fuel
its parse needs (list and field groups off by one, at any positive
indentation). -/
theorem jfuel_le_printL : ∀ n : Nat,
    (∀ j, jfuel j ≤ n → numFree j = true → ∀ ind, jfuel j ≤ (printL ind j).length)
    ∧ (∀ xs, jfuelList xs ≤ n → numFreeList xs = true → ∀ ind, 1 ≤ ind → xs ≠ [] →
        jfuelList xs ≤ (itemsL ind xs).length + 1)
    ∧ (∀ fs2, jfuelFields fs2 ≤ n → numFreeFields fs2 = true → ∀ ind, 1 ≤ ind → fs2 ≠ [] →
        jfuelFields fs2 ≤ (fieldsL ind fs2).length + 1) := by
  intro n
  induction n using Nat.strong_induction_on with
  | _ n ih =>
    refine ⟨?_, ?_, ?_⟩
    · intro j hj hnf ind
      cases j with
      | null => simp [jfuel, printL]
      | bool b => cases b <;> simp [jfuel, printL]
      | num raw => simp [numFree] at hnf
      | str s =>
        rw [printL]
        simp [jfuel, quoteL]
      | arr xs =>
        cases xs with
        | nil => simp [jfuel, jfuelList, printL]
        | cons x xs =>
          have hlt : jfuelList (x :: xs) < n := by
            have := jfuelList_pos (x :: xs)
            simp only [jfuel] at hj
            omega
          have hrec := (ih (jfuelList (x :: xs)) hlt).2.1 (x :: xs) le_rfl
            (by simpa [numFree] using hnf) (ind + 2) (by omega) (by simp)
          rw [printL]
          simp only [jfuel, List.length_cons, List.length_append, List.length_cons,
            spacesL, List.length_replicate, List.length_singleton]
          omega
      | obj fs2 =>
        cases fs2 with
        | nil => simp [jfuel, jfuelFields, printL]
        | cons g gs =>
          have hlt : jfuelFields (g :: gs) < n := by
            have := jfuelFields_pos (g :: gs)
            simp only [jfuel] at hj
            omega
          have hrec := (ih (jfuelFields (g :: gs)) hlt).2.2 (g :: gs) le_rfl
            (by simpa [numFree] using hnf) (ind + 2) (by omega) (by simp)
          rw [printL]
          simp only [jfuel, List.length_cons, List.length_append, List.length_cons,
            spacesL, List.length_replicate, List.length_singleton]
          omega
    · intro xs hxs hnf ind hind hne
      cases xs with
      | nil => exact absurd rfl hne
      | cons x xs =>
        have hnfx : numFree x = true ∧ numFreeList xs = true := by
          simpa [numFreeList, Bool.and_eq_true] using hnf
        have hjx : jfuel x < n := by
          have h1 := jfuel_pos x
          have h2 := jfuelList_pos xs
          simp only [jfuelList] at hxs
          omega
        have hx := (ih (jfuel x) hjx).1 x le_rfl hnfx.1 ind
        cases xs with
        | nil =>
          rw [show itemsL ind [ x ] = spacesL ind ++ printL ind x from by rw [itemsL]]
          simp only [jfuelList, List.length_append, spacesL, List.length_replicate]
          omega
        | cons y ys =>
          have hlt : jfuelList (y :: ys) < n := by
            have h1 := jfuel_pos x
            simp only [jfuelList] at hxs ⊢
            have h2 := jfuelList_pos ys
            have h3 := jfuel_pos y
            omega
          have hrec := (ih (jfuelList (y :: ys)) hlt).2.1 (y :: ys) le_rfl hnfx.2 ind hind
            (by simp)
          rw [show itemsL ind (x :: y :: ys)
              = spacesL ind ++ (printL ind x ++ ',' :: '\n' :: itemsL ind (y :: ys))
            from by rw [itemsL]]
          simp only [jfuelList, List.length_append, List.length_cons, spacesL,
            List.length_replicate]
          simp only [jfuelList] at hxs hrec ⊢
          omega
    · intro fs2 hfs hnf ind hind hne
      cases fs2 with
      | nil => exact absurd rfl hne
      | cons g gs =>
        obtain ⟨k, v⟩ := g
        have hnfx : numFree v = true ∧ numFreeFields gs = true := by
          simpa [numFreeFields, Bool.and_eq_true] using hnf
        have hjv : jfuel v < n := by
          have h1 := jfuel_pos v
          have h2 := jfuelFields_pos gs
          simp only [jfuelFields] at hfs
          omega
        have hv := (ih (jfuel v) hjv).1 v le_rfl hnfx.1 ind
        have hq : 2 ≤ (quoteL k).length := by
          simp [quoteL]
        cases gs with
        | nil =>
          rw [show fieldsL ind [ (k, v) ]
              = spacesL ind ++ (quoteL k ++ ':' :: ' ' :: printL ind v)
            from by rw [fieldsL]]
          simp only [jfuelFields, List.length_append, List.length_cons, spacesL,
            List.length_replicate]
          omega
        | cons g2 gs2 =>
          have hlt : jfuelFields (g2 :: gs2) < n := by
            have h1 := jfuel_pos v
            simp only [jfuelFields] at hfs ⊢
            have h2 := jfuelFields_pos gs2
            have h3 := jfuel_pos g2.2
            omega
          have hrec := (ih (jfuelFields (g2 :: gs2)) hlt).2.2 (g2 :: gs2) le_rfl hnfx.2 ind
            hind (by simp)
          rw [show fieldsL ind ((k, v) :: g2 :: gs2)
              = spacesL ind
                ++ (quoteL k ++ ':' :: ' ' :: (printL ind v ++ ',' :: '\n' :: fieldsL ind (g2 :: gs2)))
            from by rw [fieldsL]]
          simp only [jfuelFields, List.length_append, List.length_cons, spacesL,
            List.length_replicate]
          simp only [jfuelFields] at hfs hrec ⊢
          omega

/-! Single-step reductions of the token parser on printed heads: the
mutual definitions are structural in the fuel, so each unfolds by
reflexivity once the fuel is a successor. -/

theorem ptok_null (f : Nat) (rest : List Char) :
    parseTok (f + 1) ('n' :: 'u' :: 'l' :: 'l' :: rest) = some (Json.null, rest) := rfl

theorem ptok_true (f : Nat) (rest : List Char) :
    parseTok (f + 1) ('t' :: 'r' :: 'u' :: 'e' :: rest) = some (Json.bool true, rest) := rfl

theorem ptok_false (f : Nat) (rest : List Char) :
    parseTok (f + 1) ('f' :: 'a' :: 'l' :: 's' :: 'e' :: rest)
      = some (Json.bool false, rest) := rfl

theorem ptok_str_step (f : Nat) (rest : List Char) :
    parseTok (f + 1) ('"' :: rest)
      = match parseStrBody (rest.length + 1) [] rest with
        | some (s, r) => some (Json.str s, r)
        | none => none := rfl

theorem ptok_arr_step (f : Nat) (rest : List Char) :
    parseTok (f + 1) ('[' :: rest)
      = match skipWs rest with
        | ']' :: r => some (Json.arr [], r)
        | _ =>
          match parseItems f rest with
          | some (vs, r) => some (Json.arr vs, r)
          | none => none := rfl

theorem ptok_obj_step (f : Nat) (rest : List Char) :
    parseTok (f + 1) ('{' :: rest)
      = match skipWs rest with
        | '}' :: r => some (Json.obj [], r)
        | _ =>
          match parseFields f rest with
          | some (fs2, r) => some (Json.obj fs2, r)
          | none => none := rfl

theorem pitems_step (f : Nat) (cs : List Char) :
    parseItems (f + 1) cs
      = match parseTok f (skipWs cs) with
        | none => none
        | some (v, r1) =>
          match skipWs r1 with
          | ',' :: r2 =>
            match parseItems f r2 with
            | some (vs, r) => some (v :: vs, r)
            | none => none
          | ']' :: r2 => some ([ v ], r2)
          | _ => none := rfl

theorem pfields_step (f : Nat) (cs : List Char) :
    parseFields (f + 1) cs
      = match skipWs cs with
        | '"' :: r0 =>
          match parseStrBody (r0.length + 1) [] r0 with
          | none => none
          | some (k, r1) =>
            match skipWs r1 with
            | ':' :: r2 =>
              match parseTok f (skipWs r2) with
              | none => none
              | some (v, r3) =>
                match skipWs r3 with
                | ',' :: r4 =>
                  match parseFields f r4 with
                  | some (fs2, r) => some ((k, v) :: fs2, r)
                  | none => none
                | '}' :: r4 => some ([ (k, v) ], r4)
                | _ => none
            | _ => none
        | _ => none := rfl

theorem ptok_str (f : Nat) (s : String) (rest : List Char) :
    parseTok (f + 1) ('"' :: (escL s.data ++ '"' :: rest)) = some (Json.str s, rest) := by
  rw [ptok_str_step]
  have hlen : s.data.length < (escL s.data ++ '"' :: rest).length + 1 := by
    have := escL_length_ge s.data
    simp only [List.length_append, List.length_cons]
    omega
  have h := parseStrBody_escL s.data ((escL s.data ++ '"' :: rest).length + 1) [] rest hlen
  simp only [List.reverse_nil, List.nil_append] at h
  rw [h, stringMk_data]

theorem ptok_arr_nil (f : Nat) (rest : List Char) :
    parseTok (f + 1) ('[' :: ']' :: rest) = some (Json.arr [], rest) := rfl

theorem ptok_obj_nil (f : Nat) (rest : List Char) :
    parseTok (f + 1) ('{' :: '}' :: rest) = some (Json.obj [], rest) := rfl

theorem ptok_arr_cons (f : Nat) (rest' : List Char) (c : Char) (t : List Char)
    (h : skipWs rest' = c :: t) (hc : ¬c = ']') :
    parseTok (f + 1) ('[' :: rest')
      = match parseItems f rest' with
        | some (vs, r) => some (Json.arr vs, r)
        | none => none := by
  rw [ptok_arr_step, h]
  simp [hc]

theorem ptok_obj_cons (f : Nat) (rest' : List Char) (c : Char) (t : List Char)
    (h : skipWs rest' = c :: t) (hc : ¬c = '}') :
    parseTok (f + 1) ('{' :: rest')
      = match parseFields f rest' with
        | some (fs2, r) => some (Json.obj fs2, r)
        | none => none := by
  rw [ptok_obj_step, h]
  simp [hc]

/-- A nonempty item group is its first item's print preceded by padding. -/
theorem itemsL_cons_eq (ind : Nat) (x : Json) (xs : List Json) :
    ∃ T, itemsL ind (x :: xs) = spacesL ind ++ (printL ind x ++ T) := by
  cases xs with
  | nil =>
    refine ⟨[], ?_⟩
    rw [itemsL]
    simp
  | cons y ys => exact ⟨',' :: '\n' :: itemsL ind (y :: ys), by rw [itemsL]⟩

/-- A nonempty field group opens with padding and a quote. -/
theorem fieldsL_cons_eq (ind : Nat) (g : String × Json) (gs : List (String × Json)) :
    ∃ W, fieldsL ind (g :: gs) = spacesL ind ++ ('"' :: W) := by
  obtain ⟨k, v⟩ := g
  cases gs with
  | nil =>
    refine ⟨escL k.data ++ '"' :: ':' :: ' ' :: printL ind v, ?_⟩
    rw [fieldsL]
    simp [quoteL]
  | cons g2 gs2 =>
    refine ⟨escL k.data
        ++ '"' :: ':' :: ' ' :: (printL ind v ++ ',' :: '\n' :: fieldsL ind (g2 :: gs2)), ?_⟩
    rw [fieldsL]
    simp [quoteL]

theorem skipWs_cons_ws {c : Char} (l : List Char) (h : isWsChar c = true) :
    skipWs (c :: l) = skipWs l := by
  simp [skipWs, h]

/-- The printer inverts the parser at every fuel level: a printed value
parses back to itself with the printed suffix untouched, and printed item
and field groups parse back through their closing bracket. -/
theorem parse_printL : ∀ f : Nat,
    (∀ j ind rest, numFree j = true → jfuel j ≤ f →
       parseTok f (printL ind j ++ rest) = some (j, rest))
    ∧ (∀ xs ind ws1 ws2 rest, numFreeList xs = true → jfuelList xs ≤ f →
        AllWs ws1 → AllWs ws2 → xs ≠ [] →
        parseItems f (ws1 ++ (itemsL ind xs ++ ('\n' :: (ws2 ++ (']' :: rest)))))
          = some (xs, rest))
    ∧ (∀ fs2 ind ws1 ws2 rest, numFreeFields fs2 = true → jfuelFields fs2 ≤ f →
        AllWs ws1 → AllWs ws2 → fs2 ≠ [] →
        parseFields f (ws1 ++ (fieldsL ind fs2 ++ ('\n' :: (ws2 ++ ('}' :: rest)))))
          = some (fs2, rest)) := by
  intro f
  induction f with
  | zero =>
    refine ⟨?_, ?_, ?_⟩
    · intro j ind rest _ hf
      have := jfuel_pos j
      omega
    · intro xs ind ws1 ws2 rest _ hf _ _ _
      have := jfuelList_pos xs
      omega
    · intro fs2 ind ws1 ws2 rest _ hf _ _ _
      have := jfuelFields_pos fs2
      omega
  | succ f ih =>
    obtain ⟨ihTok, ihItems, ihFields⟩ := ih
    refine ⟨?_, ?_, ?_⟩
    · intro j ind rest hnf hf
      cases j with
      | null =>
        rw [printL]
        simp only [List.cons_append, List.nil_append]
        exact ptok_null f rest
      | bool b =>
        cases b
        · rw [printL]
          simp only [List.cons_append, List.nil_append]
          exact ptok_false f rest
        · rw [printL]
          simp only [List.cons_append, List.nil_append]
          exact ptok_true f rest
      | num raw => simp [numFree] at hnf
      | str s =>
        rw [printL]
        rw [show quoteL s ++ rest = '"' :: (escL s.data ++ '"' :: rest) from by
          simp [quoteL]]
        exact ptok_str f s rest
      | arr xs =>
        cases xs with
        | nil =>
          rw [printL]
          simp only [List.cons_append, List.nil_append]
          exact ptok_arr_nil f rest
        | cons x xs =>
          have hnfl : numFreeList (x :: xs) = true := by simpa [numFree] using hnf
          obtain ⟨hnfx, hnfxs⟩ : numFree x = true ∧ numFreeList xs = true := by
            simpa [numFreeList, Bool.and_eq_true] using hnfl
          have hfl : jfuelList (x :: xs) ≤ f := by
            simp only [jfuel] at hf
            omega
          obtain ⟨T, hT⟩ := itemsL_cons_eq (ind + 2) x xs
          rw [printL]
          simp only [List.cons_append]
          obtain ⟨c, t, hskip, hcw, hc1, hc2⟩ :
              ∃ c t, skipWs ('\n' :: ((itemsL (ind + 2) (x :: xs)
                  ++ ('\n' :: (spacesL ind ++ [ ']' ]))) ++ rest)) = c :: t
                ∧ isWsChar c = false ∧ ¬c = ']' ∧ ¬c = '}' := by
            obtain ⟨c, t0, hp, hcw, hc1, hc2⟩ := printL_head (ind + 2) x hnfx
            refine ⟨c, t0 ++ (T ++ ('\n' :: (spacesL ind ++ (']' :: rest)))), ?_,
              hcw, hc1, hc2⟩
            rw [show ('\n' :: ((itemsL (ind + 2) (x :: xs)
                  ++ ('\n' :: (spacesL ind ++ [ ']' ]))) ++ rest))
                = ('\n' :: spacesL (ind + 2))
                  ++ ((c :: t0) ++ (T ++ ('\n' :: (spacesL ind ++ (']' :: rest))))) from by
              rw [hT, hp]
              simp [List.append_assoc]]
            rw [skipWs_append_allWs _
                (allWs_cons (by decide) (allWs_spacesL (ind + 2))),
              List.cons_append, skipWs_not_ws _ hcw]
          rw [ptok_arr_cons f _ c t hskip hc1]
          have hitems := ihItems (x :: xs) (ind + 2) [ '\n' ] (spacesL ind) rest hnfl hfl
            allWs_newline (allWs_spacesL ind) (by simp)
          rw [show ('\n' :: ((itemsL (ind + 2) (x :: xs)
                ++ ('\n' :: (spacesL ind ++ [ ']' ]))) ++ rest))
              = [ '\n' ] ++ (itemsL (ind + 2) (x :: xs)
                ++ ('\n' :: (spacesL ind ++ (']' :: rest)))) from by
            simp [List.append_assoc]]
          rw [hitems]
      | obj fs2 =>
        cases fs2 with
        | nil =>
          rw [printL]
          simp only [List.cons_append, List.nil_append]
          exact ptok_obj_nil f rest
        | cons g gs =>
          have hnfl : numFreeFields (g :: gs) = true := by simpa [numFree] using hnf
          have hfl : jfuelFields (g :: gs) ≤ f := by
            simp only [jfuel] at hf
            omega
          obtain ⟨W, hW⟩ := fieldsL_cons_eq (ind + 2) g gs
          rw [printL]
          simp only [List.cons_append]
          have hskip : skipWs ('\n' :: ((fieldsL (ind + 2) (g :: gs)
                ++ ('\n' :: (spacesL ind ++ [ '}' ]))) ++ rest))
              = '"' :: (W ++ ('\n' :: (spacesL ind ++ ('}' :: rest)))) := by
            rw [show ('\n' :: ((fieldsL (ind + 2) (g :: gs)
                  ++ ('\n' :: (spacesL ind ++ [ '}' ]))) ++ rest))
                = ('\n' :: spacesL (ind + 2))
                  ++ ('"' :: (W ++ ('\n' :: (spacesL ind ++ ('}' :: rest))))) from by
              rw [hW]
              simp [List.append_assoc]]
            rw [skipWs_append_allWs _
                (allWs_cons (by decide) (allWs_spacesL (ind + 2))),
              skipWs_not_ws _ (by decide)]
          rw [ptok_obj_cons f _ '"' _ hskip (by decide)]
          have hfields := ihFields (g :: gs) (ind + 2) [ '\n' ] (spacesL ind) rest hnfl hfl
            allWs_newline (allWs_spacesL ind) (by simp)
          rw [show ('\n' :: ((fieldsL (ind + 2) (g :: gs)
                ++ ('\n' :: (spacesL ind ++ [ '}' ]))) ++ rest))
              = [ '\n' ] ++ (fieldsL (ind + 2) (g :: gs)
                ++ ('\n' :: (spacesL ind ++ ('}' :: rest)))) from by
            simp [List.append_assoc]]
          rw [hfields]
    · intro xs ind ws1 ws2 rest hnf hfl hws1 hws2 hne
      cases xs with
      | nil => exact absurd rfl hne
      | cons x xs =>
        obtain ⟨hnfx, hnfxs⟩ : numFree x = true ∧ numFreeList xs = true := by
          simpa [numFreeList, Bool.and_eq_true] using hnf
        obtain ⟨c, t0, hp, hcw, hc1, hc2⟩ := printL_head ind x hnfx
        rw [pitems_step]
        cases xs with
        | nil =>
          have hskip : skipWs (ws1 ++ (itemsL ind [ x ]
                ++ ('\n' :: (ws2 ++ (']' :: rest)))))
              = c :: (t0 ++ ('\n' :: (ws2 ++ (']' :: rest)))) := by
            rw [show ws1 ++ (itemsL ind [ x ] ++ ('\n' :: (ws2 ++ (']' :: rest))))
                = ws1 ++ (spacesL ind
                  ++ ((c :: t0) ++ ('\n' :: (ws2 ++ (']' :: rest))))) from by
              rw [show itemsL ind [ x ] = spacesL ind ++ printL ind x from by rw [itemsL],
                hp]
              simp [List.append_assoc]]
            rw [skipWs_append_allWs _ hws1, skipWs_append_allWs _ (allWs_spacesL ind),
              List.cons_append, skipWs_not_ws _ hcw]
          have htok := ihTok x ind ('\n' :: (ws2 ++ (']' :: rest))) hnfx (by
            simp only [jfuelList] at hfl
            omega)
          rw [hp] at htok
          simp only [List.cons_append] at htok
          have hsuf : skipWs ('\n' :: (ws2 ++ (']' :: rest))) = ']' :: rest := by
            rw [skipWs_cons_ws _ (by decide), skipWs_append_allWs _ hws2,
              skipWs_not_ws _ (by decide)]
          simp only [hskip, htok, hsuf]
        | cons y ys =>
          have hskip : skipWs (ws1 ++ (itemsL ind (x :: y :: ys)
                ++ ('\n' :: (ws2 ++ (']' :: rest)))))
              = c :: (t0 ++ (',' :: ('\n' :: (itemsL ind (y :: ys)
                ++ ('\n' :: (ws2 ++ (']' :: rest))))))) := by
            rw [show ws1 ++ (itemsL ind (x :: y :: ys) ++ ('\n' :: (ws2 ++ (']' :: rest))))
                = ws1 ++ (spacesL ind ++ ((c :: t0) ++ (',' :: ('\n' :: (itemsL ind (y :: ys)
                  ++ ('\n' :: (ws2 ++ (']' :: rest)))))))) from by
              rw [show itemsL ind (x :: y :: ys)
                  = spacesL ind ++ (printL ind x ++ (',' :: '\n' :: itemsL ind (y :: ys)))
                  from by rw [itemsL], hp]
              simp [List.append_assoc]]
            rw [skipWs_append_allWs _ hws1, skipWs_append_allWs _ (allWs_spacesL ind),
              List.cons_append, skipWs_not_ws _ hcw]
          have htok := ihTok x ind (',' :: ('\n' :: (itemsL ind (y :: ys)
              ++ ('\n' :: (ws2 ++ (']' :: rest)))))) hnfx (by
            simp only [jfuelList] at hfl
            have := jfuel_pos y
            have := jfuelList_pos ys
            omega)
          rw [hp] at htok
          simp only [List.cons_append] at htok
          have hsk2 : skipWs (',' :: ('\n' :: (itemsL ind (y :: ys)
              ++ ('\n' :: (ws2 ++ (']' :: rest))))))
              = ',' :: ('\n' :: (itemsL ind (y :: ys)
                ++ ('\n' :: (ws2 ++ (']' :: rest))))) := by
            rw [skipWs_not_ws _ (by decide)]
          have hrec := ihItems (y :: ys) ind [ '\n' ] ws2 rest hnfxs (by
            simp only [jfuelList] at hfl ⊢
            have := jfuel_pos x
            omega) allWs_newline hws2 (by simp)
          simp only [List.singleton_append] at hrec
          simp only [hskip, htok, hsk2, hrec]
    · intro fs2 ind ws1 ws2 rest hnf hfl hws1 hws2 hne
      cases fs2 with
      | nil => exact absurd rfl hne
      | cons g gs =>
        obtain ⟨k, v⟩ := g
        obtain ⟨hnfv, hnfgs⟩ : numFree v = true ∧ numFreeFields gs = true := by
          simpa [numFreeFields, Bool.and_eq_true] using hnf
        obtain ⟨c, t0, hp, hcw, hc1, hc2⟩ := printL_head ind v hnfv
        rw [pfields_step]
        cases gs with
        | nil =>
          have hskip : skipWs (ws1 ++ (fieldsL ind [ (k, v) ]
                ++ ('\n' :: (ws2 ++ ('}' :: rest)))))
              = '"' :: (escL k.data ++ ('"' :: (':' :: (' ' :: (printL ind v
                ++ ('\n' :: (ws2 ++ ('}' :: rest)))))))) := by
            rw [show ws1 ++ (fieldsL ind [ (k, v) ] ++ ('\n' :: (ws2 ++ ('}' :: rest))))
                = ws1 ++ (spacesL ind ++ ('"' :: (escL k.data ++ ('"' :: (':' :: (' ' :: (printL ind v
                  ++ ('\n' :: (ws2 ++ ('}' :: rest)))))))))) from by
              rw [show fieldsL ind [ (k, v) ]
                  = spacesL ind ++ (quoteL k ++ ':' :: ' ' :: printL ind v)
                  from by rw [fieldsL]]
              simp [quoteL, List.append_assoc]]
            rw [skipWs_append_allWs _ hws1, skipWs_append_allWs _ (allWs_spacesL ind),
              skipWs_not_ws _ (by decide)]
          have hlen : k.data.length < (escL k.data ++ ('"' :: (':' :: (' ' :: (printL ind v
              ++ ('\n' :: (ws2 ++ ('}' :: rest)))))))).length + 1 := by
            have := escL_length_ge k.data
            simp only [List.length_append, List.length_cons]
            omega
          have hpsb := parseStrBody_escL k.data
            ((escL k.data ++ ('"' :: (':' :: (' ' :: (printL ind v
              ++ ('\n' :: (ws2 ++ ('}' :: rest)))))))).length + 1) []
            (':' :: (' ' :: (printL ind v ++ ('\n' :: (ws2 ++ ('}' :: rest)))))) hlen
          simp only [List.reverse_nil, List.nil_append] at hpsb
          rw [stringMk_data] at hpsb
          have hsk1 : skipWs (':' :: (' ' :: (printL ind v
              ++ ('\n' :: (ws2 ++ ('}' :: rest))))))
              = ':' :: (' ' :: (printL ind v ++ ('\n' :: (ws2 ++ ('}' :: rest))))) := by
            rw [skipWs_not_ws _ (by decide)]
          have hsk2 : skipWs (' ' :: (printL ind v ++ ('\n' :: (ws2 ++ ('}' :: rest)))))
              = c :: (t0 ++ ('\n' :: (ws2 ++ ('}' :: rest)))) := by
            rw [skipWs_cons_ws _ (by decide), hp, List.cons_append,
              skipWs_not_ws _ hcw]
          have htok := ihTok v ind ('\n' :: (ws2 ++ ('}' :: rest))) hnfv (by
            simp only [jfuelFields] at hfl
            omega)
          rw [hp] at htok
          simp only [List.cons_append] at htok
          have hsuf : skipWs ('\n' :: (ws2 ++ ('}' :: rest))) = '}' :: rest := by
            rw [skipWs_cons_ws _ (by decide), skipWs_append_allWs _ hws2,
              skipWs_not_ws _ (by decide)]
          simp only [hskip, hpsb, hsk1, hsk2, htok, hsuf]
        | cons g2 gs2 =>
          have hskip : skipWs (ws1 ++ (fieldsL ind ((k, v) :: g2 :: gs2)
                ++ ('\n' :: (ws2 ++ ('}' :: rest)))))
              = '"' :: (escL k.data ++ ('"' :: (':' :: (' ' :: (printL ind v
                ++ (',' :: ('\n' :: (fieldsL ind (g2 :: gs2)
                  ++ ('\n' :: (ws2 ++ ('}' :: rest))))))))))) := by
            rw [show ws1 ++ (fieldsL ind ((k, v) :: g2 :: gs2)
                  ++ ('\n' :: (ws2 ++ ('}' :: rest))))
                = ws1 ++ (spacesL ind ++ ('"' :: (escL k.data ++ ('"' :: (':' :: (' ' :: (printL ind v
                  ++ (',' :: ('\n' :: (fieldsL ind (g2 :: gs2)
                    ++ ('\n' :: (ws2 ++ ('}' :: rest))))))))))))) from by
              rw [show fieldsL ind ((k, v) :: g2 :: gs2)
                  = spacesL ind ++ (quoteL k ++ ':' :: ' ' :: (printL ind v
                    ++ ',' :: '\n' :: fieldsL ind (g2 :: gs2)))
                  from by rw [fieldsL]]
              simp [quoteL, List.append_assoc]]
            rw [skipWs_append_allWs _ hws1, skipWs_append_allWs _ (allWs_spacesL ind),
              skipWs_not_ws _ (by decide)]
          have hlen : k.data.length < (escL k.data ++ ('"' :: (':' :: (' ' :: (printL ind v
              ++ (',' :: ('\n' :: (fieldsL ind (g2 :: gs2)
                ++ ('\n' :: (ws2 ++ ('}' :: rest))))))))))).length + 1 := by
            have := escL_length_ge k.data
            simp only [List.length_append, List.length_cons]
            omega
          have hpsb := parseStrBody_escL k.data
            ((escL k.data ++ ('"' :: (':' :: (' ' :: (printL ind v
              ++ (',' :: ('\n' :: (fieldsL ind (g2 :: gs2)
                ++ ('\n' :: (ws2 ++ ('}' :: rest))))))))))).length + 1) []
            (':' :: (' ' :: (printL ind v ++ (',' :: ('\n' :: (fieldsL ind (g2 :: gs2)
              ++ ('\n' :: (ws2 ++ ('}' :: rest))))))))) hlen
          simp only [List.reverse_nil, List.nil_append] at hpsb
          rw [stringMk_data] at hpsb
          have hsk1 : skipWs (':' :: (' ' :: (printL ind v ++ (',' :: ('\n' :: (fieldsL ind (g2 :: gs2)
              ++ ('\n' :: (ws2 ++ ('}' :: rest)))))))))
              = ':' :: (' ' :: (printL ind v ++ (',' :: ('\n' :: (fieldsL ind (g2 :: gs2)
                ++ ('\n' :: (ws2 ++ ('}' :: rest)))))))) := by
            rw [skipWs_not_ws _ (by decide)]
          have hsk2 : skipWs (' ' :: (printL ind v ++ (',' :: ('\n' :: (fieldsL ind (g2 :: gs2)
              ++ ('\n' :: (ws2 ++ ('}' :: rest))))))))
              = c :: (t0 ++ (',' :: ('\n' :: (fieldsL ind (g2 :: gs2)
                ++ ('\n' :: (ws2 ++ ('}' :: rest))))))) := by
            rw [skipWs_cons_ws _ (by decide), hp, List.cons_append,
              skipWs_not_ws _ hcw]
          have htok := ihTok v ind (',' :: ('\n' :: (fieldsL ind (g2 :: gs2)
              ++ ('\n' :: (ws2 ++ ('}' :: rest)))))) hnfv (by
            simp only [jfuelFields] at hfl
            have := jfuel_pos g2.2
            have := jfuelFields_pos gs2
            omega)
          rw [hp] at htok
          simp only [List.cons_append] at htok
          have hsk3 : skipWs (',' :: ('\n' :: (fieldsL ind (g2 :: gs2)
              ++ ('\n' :: (ws2 ++ ('}' :: rest))))))
              = ',' :: ('\n' :: (fieldsL ind (g2 :: gs2)
                ++ ('\n' :: (ws2 ++ ('}' :: rest))))) := by
            rw [skipWs_not_ws _ (by decide)]
          have hrec := ihFields (g2 :: gs2) ind [ '\n' ] ws2 rest hnfgs (by
            simp only [jfuelFields] at hfl ⊢
            have := jfuel_pos v
            omega) allWs_newline hws2 (by simp)
          simp only [List.singleton_append] at hrec
          simp only [hskip, hpsb, hsk1, hsk2, htok, hsk3, hrec]

theorem numFreeFields_append (a b : List (String × Json)) :
    numFreeFields (a ++ b) = (numFreeFields a && numFreeFields b) := by
  induction a with
  | nil => simp [numFreeFields]
  | cons g gs ih =>
    obtain ⟨k, v⟩ := g
    simp [numFreeFields, ih, Bool.and_assoc]

theorem numFree_optStrField (k : String) (o : Option String) :
    numFreeFields (optStrField k o) = true := by
  cases o <;> simp [optStrField, numFreeFields, numFree]

theorem numFreeList_map_str (ds : List String) : numFreeList (ds.map Json.str) = true := by
  induction ds with
  | nil => simp [numFreeList]
  | cons d ds ih => simp [numFreeList, numFree, ih]

theorem numFree_encodeDirs (d : Directories) : numFree (encodeDirs d) = true := by
  simp [encodeDirs, numFree, numFreeFields_append, numFree_optStrField, numFreeFields]

/-- Serialized profiles never contain a number node. -/
theorem numFree_encodeCtx (P : ProjectContext) : numFree (encodeCtx P) = true := by
  simp only [encodeCtx, numFree, numFreeFields_append, numFree_optStrField,
    Bool.true_and]
  cases P.directories <;> cases P.dependencies <;>
    simp [numFreeFields, numFree, encodeDirs, numFreeFields_append,
      numFree_optStrField, numFreeList_map_str]

/-- `JSON.parse` recovers exactly the value that `JSON.stringify(·, null, 2)`
printed, with the trailing newline the save path appends tolerated as
whitespace. -/
theorem parseJson_print (j : Json) (hnf : numFree j = true) :
    parseJson (stringify j ++ "\n") = some j := by
  obtain ⟨c, t, hp, hcw, _, _⟩ := printL_head 0 j hnf
  have hdata : (stringify j ++ "\n").data = printL 0 j ++ [ '\n' ] := by
    rw [String.data_append]
    rfl
  rw [parseJson, parseVal, hdata]
  have hskip : skipWs (printL 0 j ++ [ '\n' ]) = printL 0 j ++ [ '\n' ] := by
    rw [hp, List.cons_append, skipWs_not_ws _ hcw]
  rw [hskip]
  have hfuel : jfuel j ≤ (printL 0 j ++ [ '\n' ]).length + 1 := by
    have h1 := (jfuel_le_printL (jfuel j)).1 j le_rfl hnf 0
    simp only [List.length_append, List.length_cons, List.length_nil]
    omega
  have htok := (parse_printL ((printL 0 j ++ [ '\n' ]).length + 1)).1 j 0 [ '\n' ] hnf hfuel
  rw [htok]
  simp [skipWs, isWsChar]

/-- C7: persistence round-trips — for every profile, including the empty
one, saving it to the state file and loading again returns exactly the
saved profile's JSON encoding. -/
theorem c7_roundtrip (P : ProjectContext) :
    loadProjectContext (saveProjectContext P) = some (encodeCtx P) := by
  rw [saveProjectContext, loadProjectContext]
  exact parseJson_print (encodeCtx P) (numFree_encodeCtx P)

/-- C8: a missing state file, an unreadable one, and one whose content does
not parse as JSON all load as "no stored profile" (null); no error
surfaces. -/
theorem c8_load_failure_null :
    loadProjectContext .absent = none ∧ loadProjectContext .unreadable = none
      ∧ ∀ s, parseJson s = none → loadProjectContext (.present s) = none := by
  refine ⟨rfl, rfl, ?_⟩
  intro s h
  rw [loadProjectContext, h]

/-- Witness: a state file holding plain prose fails to parse and loads as
no stored profile. -/
theorem c8_load_failure_null_witness :
    parseJson "not valid json" = none
      ∧ loadProjectContext (.present "not valid json") = none :=
  ⟨by rfl, c8_load_failure_null.2.2 "not valid json" (by rfl)⟩

/-- C10: loading performs no shape validation — every content that parses
as JSON at all is returned as the stored profile (never treated as
absent), whatever shape the value has. -/
theorem c10_no_validation (s : String) (j : Json) (h : parseJson s = some j) :
    loadProjectContext (.present s) = some j ∧ loadProjectContext (.present s) ≠ none := by
  rw [loadProjectContext, h]
  exact ⟨rfl, by simp⟩

/-- Witness: a state file holding a JSON array — not a profile-shaped
object — is returned as a stored profile. -/
theorem c10_no_validation_witness :
    parseJson "[1, 2]" = some (Json.arr [ Json.num "1", Json.num "2" ])
      ∧ loadProjectContext (.present "[1, 2]")
        = some (Json.arr [ Json.num "1", Json.num "2" ]) :=
  ⟨by rfl,
    (c10_no_validation "[1, 2]" (Json.arr [ Json.num "1", Json.num "2" ]) (by rfl)).1⟩

end PromptFmt
